import Mathlib

/-!
Verification of the event normalization and consolidation pipeline of the
Glance-CRON repository against its design specification.

Embedding conventions:
* JavaScript strings are Lean `String`s; the handful of string primitives the
  source uses (padStart, slice, split, toUpperCase, trim, includes,
  lexicographic comparison) are re-implemented structurally over `String.data`
  so that every definition evaluates by kernel reduction.
* Decimal digit strings inside the identity generator are modelled as their
  big-endian digit lists (a character `'0'..'9'` is modelled by its value);
  `padStart(10, '0')` prepends zeros, `slice(-6)` keeps the last six digits
  and `parseInt` evaluates the digit list.
* JavaScript numbers holding decimal-hour values are modelled as exact
  rationals (`ℚ`); `Math.floor` and `Math.round` are computed from the
  numerator and denominator by integer division, and proved equal to
  Mathlib's `Int.floor` and `round`.
* `null`/`undefined` values are modelled with `Option`; optional chaining
  (`a?.b`) becomes `Option.bind`.
* Impure wall-clock reads (`new Date()`) are modelled by an explicit `today`
  parameter; the `updated_at`/`created_at` timestamp fields, which are pure
  wall-clock noise, are omitted from the embedded records.
-/

/-! ### JavaScript string primitives, modelled structurally -/

/-- JS `String.prototype.padStart(w, c)`. -/
def jsPadStart (w : ℕ) (c : Char) (s : String) : String :=
  String.mk (List.replicate (w - s.length) c ++ s.data)

/-- JS `String.prototype.toUpperCase()` (ASCII, which is all the source uses). -/
def jsToUpper (s : String) : String :=
  String.mk (s.data.map Char.toUpper)

/-- JS `String.prototype.startsWith(pre)`. -/
def jsStartsWith (s pre : String) : Bool :=
  pre.data.isPrefixOf s.data

/-- JS `String.prototype.includes(c)` for a one-character needle. -/
def jsIncludesChar (s : String) (c : Char) : Bool :=
  s.data.contains c

/-- Auxiliary for `jsSplitOnChar`: accumulates the current field in reverse. -/
def jsSplitOnCharAux (c : Char) : List Char → List Char → List (List Char)
  | [], acc => [acc.reverse]
  | x :: xs, acc =>
    if x = c then acc.reverse :: jsSplitOnCharAux c xs []
    else jsSplitOnCharAux c xs (x :: acc)

/-- JS `String.prototype.split(d)` for a one-character delimiter. -/
def jsSplitOnChar (c : Char) (s : String) : List String :=
  (jsSplitOnCharAux c s.data []).map String.mk

/-- Fuel-driven worker for `jsSplitOnList`; the fuel starts at the length of
the string, which suffices because each step consumes at least one char. -/
def jsSplitOnListAux (delim : List Char) : ℕ → List Char → List Char → List (List Char)
  | 0, rest, acc => [(acc.reverse ++ rest)]
  | _ + 1, [], acc => [acc.reverse]
  | fuel + 1, c :: cs, acc =>
    if delim.isPrefixOf (c :: cs) then
      acc.reverse :: jsSplitOnListAux delim fuel ((c :: cs).drop delim.length) []
    else jsSplitOnListAux delim fuel cs (c :: acc)

/-- JS `String.prototype.split(d)` for a multi-character delimiter
(the source only splits on the two-character delimiter of the
instructor list). -/
def jsSplitOnList (delim : String) (s : String) : List String :=
  (jsSplitOnListAux delim.data (s.data.length + 1) s.data []).map String.mk

/-- JS whitespace test restricted to the ASCII whitespace the source data
can contain. -/
def jsIsWs (c : Char) : Bool := c.isWhitespace

/-- JS `String.prototype.trim()`. -/
def jsTrim (s : String) : String :=
  String.mk (((s.data.dropWhile jsIsWs).reverse.dropWhile jsIsWs).reverse)

/-- JS `<` on strings: lexicographic comparison of code units (identical to
codepoint comparison on the ASCII data the source compares). -/
def listLtB : List Char → List Char → Bool
  | _, [] => false
  | [], _ :: _ => true
  | a :: as, b :: bs =>
    if a.toNat < b.toNat then true
    else if b.toNat < a.toNat then false
    else listLtB as bs

/-- JS `a < b` on strings. -/
def strLtB (a b : String) : Bool := listLtB a.data b.data

/-! ### Decimal digit strings for the identity generator

A decimal string is modelled as its big-endian list of digit values. -/

/-- Fuel-driven digit extraction: builds the big-endian decimal digits of
`n`.  Fuel `n` suffices because `n / 10 < n` for `n > 0`. -/
def decDigitsGo : ℕ → ℕ → List ℕ → List ℕ
  | 0, _, acc => acc
  | fuel + 1, n, acc =>
    if n = 0 then acc else decDigitsGo fuel (n / 10) (n % 10 :: acc)

/-- The big-endian decimal digits of `n` (the digit-list model of JS
`n.toString()`; `0` is modelled by the empty list, which the padding step
makes indistinguishable from the one-character string "0"). -/
def decDigits (n : ℕ) : List ℕ := decDigitsGo n n []

/-- JS `padStart(w, '0')` on a digit list. -/
def jsPadStartZeros (w : ℕ) (l : List ℕ) : List ℕ :=
  List.replicate (w - l.length) 0 ++ l

/-- JS `slice(-k)` on a digit list: the last `k` digits. -/
def jsSliceLast (k : ℕ) (l : List ℕ) : List ℕ :=
  (l.reverse.take k).reverse

/-- JS `parseInt` on a digit list. -/
def jsParseIntDigits (l : List ℕ) : ℕ := Nat.ofDigits 10 l.reverse

/-- `generateDeterministicId` from `dataProcessor.js` / `utils.js`: pad the
three ids as decimal text to widths 10, 10, 5, keep the trailing 6, 6, 5
digits, reinterpret as integers and pack them. -/
def generateDeterministicId (itemId itemId2 subjectItemId : ℕ) : ℕ :=
  let itemIdStr := jsPadStartZeros 10 (decDigits itemId)
  let itemId2Str := jsPadStartZeros 10 (decDigits itemId2)
  let subjectItemIdStr := jsPadStartZeros 5 (decDigits subjectItemId)
  let itemIdPart := jsParseIntDigits (jsSliceLast 6 itemIdStr)
  let itemId2Part := jsParseIntDigits (jsSliceLast 6 itemId2Str)
  let subjectPart := jsParseIntDigits (jsSliceLast 5 subjectItemIdStr)
  itemIdPart * 1000000000 + itemId2Part * 10000 + subjectPart

theorem decDigitsGo_eq (fuel : ℕ) :
    ∀ n acc, n ≤ fuel → decDigitsGo fuel n acc = (Nat.digits 10 n).reverse ++ acc := by
  induction fuel with
  | zero =>
    intro n acc hn
    have h0 : n = 0 := Nat.le_zero.mp hn
    subst h0
    simp [decDigitsGo]
  | succ f ih =>
    intro n acc hn
    rcases Nat.eq_zero_or_pos n with h0 | h0
    · subst h0; simp [decDigitsGo]
    · have hne : n ≠ 0 := h0.ne'
      simp only [decDigitsGo]
      rw [if_neg hne]
      have hdiv : n / 10 ≤ f := by
        have : n / 10 < n := Nat.div_lt_self h0 (by norm_num)
        omega
      rw [ih (n / 10) (n % 10 :: acc) hdiv]
      rw [Nat.digits_def' (by norm_num : (1:ℕ) < 10) h0]
      simp

theorem decDigits_eq (n : ℕ) : decDigits n = (Nat.digits 10 n).reverse := by
  simpa using decDigitsGo_eq n n [] le_rfl

theorem ofDigits_replicate_zero (m : ℕ) :
    Nat.ofDigits 10 (List.replicate m 0) = 0 := by
  induction m with
  | zero => simp
  | succ k ih => rw [List.replicate_succ, Nat.ofDigits_cons, ih]

theorem ofDigits_take_digits (k : ℕ) :
    ∀ n, Nat.ofDigits 10 ((Nat.digits 10 n).take k) = n % 10 ^ k := by
  induction k with
  | zero => intro n; simp [Nat.mod_one]
  | succ k ih =>
    intro n
    rcases Nat.eq_zero_or_pos n with h0 | h0
    · subst h0; simp
    · rw [Nat.digits_def' (by norm_num : (1:ℕ) < 10) h0, List.take_succ_cons,
        Nat.ofDigits_cons, ih]
      have hM : 0 < 10 ^ k := by positivity
      have hr : n % 10 < 10 := Nat.mod_lt _ (by norm_num)
      have key : (10 * (n / 10) + n % 10) % (10 * 10 ^ k)
          = 10 * (n / 10 % 10 ^ k) + n % 10 := by
        rw [Nat.add_mod, Nat.mul_mod_mul_left]
        have h2 : n % 10 % (10 * 10 ^ k) = n % 10 :=
          Nat.mod_eq_of_lt (lt_of_lt_of_le hr (by nlinarith))
        rw [h2]
        have h3 : 10 * (n / 10 % 10 ^ k) + n % 10 < 10 * 10 ^ k := by
          have hq : n / 10 % 10 ^ k < 10 ^ k := Nat.mod_lt _ hM
          omega
        exact Nat.mod_eq_of_lt h3
      calc n % 10 + 10 * (n / 10 % 10 ^ k)
          = (10 * (n / 10) + n % 10) % (10 * 10 ^ k) := by rw [key]; omega
        _ = n % 10 ^ (k + 1) := by rw [Nat.div_add_mod n 10, pow_succ']

theorem parse_slice_pad (w k n : ℕ) :
    jsParseIntDigits (jsSliceLast k (jsPadStartZeros w (decDigits n))) = n % 10 ^ k := by
  unfold jsParseIntDigits jsSliceLast jsPadStartZeros
  rw [List.reverse_reverse, List.reverse_append, List.reverse_replicate,
    decDigits_eq, List.reverse_reverse, List.take_append_eq_append_take,
    List.take_replicate, Nat.ofDigits_append, ofDigits_take_digits,
    ofDigits_replicate_zero, Nat.mul_zero, Nat.add_zero]

theorem generateDeterministicId_eq_mod (a b c : ℕ) :
    generateDeterministicId a b c
      = a % 10 ^ 6 * 1000000000 + b % 10 ^ 6 * 10000 + c % 10 ^ 5 := by
  simp only [generateDeterministicId, parse_slice_pad]

/-- Claim C2: for all non-negative integer triples, `generateDeterministicId`
computes `(itemId mod 10^6) * 10^9 + (itemId2 mod 10^6) * 10^4 +
(subjectItemId mod 10^5)` (the pad/slice/parse pipeline realises exactly the
stated keep-the-trailing-digits formula), and the result always fits a signed
64-bit integer.  Determinism across calls is immediate since the embedding is
a pure function of the triple. -/
theorem c2_deterministic_id (itemId itemId2 subjectItemId : ℕ) :
    generateDeterministicId itemId itemId2 subjectItemId
        = itemId % 10 ^ 6 * 1000000000 + itemId2 % 10 ^ 6 * 10000 + subjectItemId % 10 ^ 5
      ∧ generateDeterministicId itemId itemId2 subjectItemId < 2 ^ 63 := by
  refine ⟨generateDeterministicId_eq_mod _ _ _, ?_⟩
  rw [generateDeterministicId_eq_mod]
  have h1 : itemId % 10 ^ 6 < 10 ^ 6 := Nat.mod_lt _ (by norm_num)
  have h2 : itemId2 % 10 ^ 6 < 10 ^ 6 := Nat.mod_lt _ (by norm_num)
  have h3 : subjectItemId % 10 ^ 5 < 10 ^ 5 := Nat.mod_lt _ (by norm_num)
  norm_num at h1 h2 h3 ⊢
  omega

/-- Claim C3 counterexample: the kept low-digit tuples of `(0, 1, 0)` and
`(0, 0, 10000)` differ, yet both triples map to the id 10000, because the
subject part (5 digits) overflows its 4-digit slot in the packing formula.
This refutes the claim that ids differ whenever the kept tuples differ. -/
theorem c3_counterexample :
    generateDeterministicId 0 1 0 = generateDeterministicId 0 0 10000
      ∧ ¬(((0:ℕ) % 10 ^ 6, (1:ℕ) % 10 ^ 6, (0:ℕ) % 10 ^ 5)
          = ((0:ℕ) % 10 ^ 6, (0:ℕ) % 10 ^ 6, (10000:ℕ) % 10 ^ 5)) := by
  rw [generateDeterministicId_eq_mod, generateDeterministicId_eq_mod]
  constructor
  · norm_num
  · intro h
    have h2 := congrArg (fun t => t.2.1) h
    norm_num at h2

/-- Claim C3, amended: identity collisions are not limited to the discarded
high-order digits.  The guarantee that differing kept tuples give distinct
ids only holds when the packed parts fit their slots: when the itemId2 parts
are below 10^5 and the subject parts are below 10^4, distinct kept tuples
yield distinct ids; outside those bounds the slots overlap and distinct kept
tuples can collide (see the counterexample). -/
theorem c3_amended (a b c a' b' c' : ℕ)
    (hb : b % 10 ^ 6 < 10 ^ 5) (hb' : b' % 10 ^ 6 < 10 ^ 5)
    (hc : c % 10 ^ 5 < 10 ^ 4) (hc' : c' % 10 ^ 5 < 10 ^ 4)
    (hne : ¬(a % 10 ^ 6 = a' % 10 ^ 6 ∧ b % 10 ^ 6 = b' % 10 ^ 6 ∧ c % 10 ^ 5 = c' % 10 ^ 5)) :
    generateDeterministicId a b c ≠ generateDeterministicId a' b' c' := by
  rw [Ne, generateDeterministicId_eq_mod, generateDeterministicId_eq_mod]
  intro h
  refine hne ?_
  norm_num at hb hb' hc hc' h ⊢
  omega

/-- Witness for the amended claim C3 at the triples `(1, 5, 7)` and
`(1, 6, 7)`. -/
theorem c3_amended_witness :
    ((5:ℕ) % 10 ^ 6 < 10 ^ 5 ∧ (6:ℕ) % 10 ^ 6 < 10 ^ 5
        ∧ (7:ℕ) % 10 ^ 5 < 10 ^ 4
        ∧ ¬((1:ℕ) % 10 ^ 6 = (1:ℕ) % 10 ^ 6 ∧ (5:ℕ) % 10 ^ 6 = (6:ℕ) % 10 ^ 6
              ∧ (7:ℕ) % 10 ^ 5 = (7:ℕ) % 10 ^ 5))
      ∧ generateDeterministicId 1 5 7 ≠ generateDeterministicId 1 6 7 :=
  ⟨⟨by norm_num, by norm_num, by norm_num, by norm_num⟩,
    c3_amended 1 5 7 1 6 7 (by norm_num) (by norm_num) (by norm_num) (by norm_num)
      (by norm_num)⟩

/-! ### Time/Date Normalizer: decimal hours to clock-time strings -/

/-- JS `Math.floor` on an exact rational, computed from numerator and
denominator by integer division (core `Int` division is euclidean, hence
floors for the positive denominator); proved equal to `Int.floor` in
`jsFloorQ_eq_floor`. -/
def jsFloorQ (q : ℚ) : ℤ := q.num / (q.den : ℤ)

/-- JS `Math.round((q - Math.floor(q)) * 60)` computed from numerator and
denominator; proved equal to `round ((q - ⌊q⌋) * 60)` in
`jsMinuteQ_eq_round`. -/
def jsMinuteQ (q : ℚ) : ℤ :=
  (120 * (q.num - q.num / (q.den : ℤ) * (q.den : ℤ)) + (q.den : ℤ)) / (2 * (q.den : ℤ))

/-- One component of `toTimeStrings` from `utils.js`: hour is the floor of
the decimal-hour value, minute is the rounded fractional part times 60, both
zero-padded to two characters, seconds literally "00". -/
def toTimeStr (t : ℚ) : String :=
  jsPadStart 2 '0' (Int.repr (jsFloorQ t)) ++ ":"
    ++ jsPadStart 2 '0' (Int.repr (jsMinuteQ t)) ++ ":00"

/-- `toTimeStrings` from `utils.js`: both bounds converted by the same
per-value computation. -/
def toTimeStrings (start end_ : ℚ) : String × String :=
  (toTimeStr start, toTimeStr end_)

theorem jsFloorQ_eq_floor (q : ℚ) : jsFloorQ q = ⌊q⌋ := by
  rw [jsFloorQ]
  conv_rhs => rw [← Rat.num_div_den q]
  rw [Rat.floor_intCast_div_natCast]

theorem jsMinuteQ_eq_round (q : ℚ) : jsMinuteQ q = round ((q - ⌊q⌋) * 60) := by
  have hden : ((q.den : ℚ)) ≠ 0 := Nat.cast_ne_zero.mpr q.den_nz
  have hq2 : ((q.num : ℚ)) = q * (q.den : ℚ) :=
    (div_eq_iff hden).mp (Rat.num_div_den q)
  rw [round_eq, jsMinuteQ]
  have key : (q - (⌊q⌋ : ℚ)) * 60 + 1 / 2
      = (((120 * (q.num - q.num / (q.den : ℤ) * (q.den : ℤ)) + (q.den : ℤ)) : ℤ) : ℚ)
          / ((2 * q.den : ℕ) : ℚ) := by
    rw [← jsFloorQ_eq_floor, jsFloorQ]
    push_cast
    rw [eq_div_iff (by positivity : ((2:ℚ) * (q.den : ℚ)) ≠ 0)]
    linear_combination (-120 : ℚ) * hq2
  rw [key, Rat.floor_intCast_div_natCast]
  push_cast
  ring_nf

/-- The decimal-hour value 13.9999, exhibited as an exact rational. -/
def qC5 : ℚ := Rat.mk' 139999 10000 (by norm_num) (by norm_num)

/-- The decimal-hour value 13.5, exhibited as an exact rational. -/
def qHalf13 : ℚ := Rat.mk' 27 2 (by norm_num) (by norm_num)

theorem toTimeStr_spec (t : ℚ) (h0 : 0 ≤ t) (h24 : t < 24) :
    toTimeStr t
        = jsPadStart 2 '0' (Int.repr ⌊t⌋) ++ ":"
            ++ jsPadStart 2 '0' (Int.repr (round ((t - ⌊t⌋) * 60))) ++ ":00"
      ∧ 0 ≤ ⌊t⌋ ∧ ⌊t⌋ < 24
      ∧ 0 ≤ round ((t - ⌊t⌋) * 60) ∧ round ((t - ⌊t⌋) * 60) ≤ 60
      ∧ (round ((t - ⌊t⌋) * 60) < 60 ↔ t - ⌊t⌋ < 119 / 120) := by
  have hfl : ((⌊t⌋ : ℚ)) ≤ t := Int.floor_le t
  have hfu : t < ⌊t⌋ + 1 := Int.lt_floor_add_one t
  refine ⟨?_, ?_, ?_, ?_, ?_, ?_⟩
  · rw [toTimeStr, jsFloorQ_eq_floor, jsMinuteQ_eq_round]
  · exact Int.le_floor.mpr (by exact_mod_cast h0)
  · exact Int.floor_lt.mpr (by exact_mod_cast h24)
  · rw [round_eq]
    refine Int.le_floor.mpr ?_
    push_cast
    nlinarith
  · rw [round_eq]
    have hlt : (t - ⌊t⌋) * 60 + 1 / 2 < ((61 : ℤ) : ℚ) := by push_cast; nlinarith
    have h := Int.floor_lt.mpr hlt
    omega
  · rw [round_eq]
    constructor
    · intro h
      have h2 : (t - ⌊t⌋) * 60 + 1 / 2 < ((60 : ℤ) : ℚ) := Int.floor_lt.mp h
      push_cast at h2
      linarith
    · intro h
      refine Int.floor_lt.mpr ?_
      push_cast
      linarith

/-- Claim C5 counterexample: the decimal-hour value 13.9999 lies in
`[0, 24)` but its minute field rounds to 60, so `toTimeStrings` produces
"13:60:00", which is not a valid clock time (the claim asserts the minute is
always strictly below 60). -/
theorem c5_counterexample :
    (0:ℚ) ≤ qC5 ∧ qC5 < 24
      ∧ (toTimeStrings qC5 qC5).1 = "13:60:00"
      ∧ round ((qC5 - ⌊qC5⌋) * 60) = 60 := by
  refine ⟨by decide, by decide, by decide, ?_⟩
  rw [← jsMinuteQ_eq_round]
  decide

/-- Claim C5, amended: for decimal-hour values in `[0, 24)` the two output
strings have the shape hour-pad, ":", minute-pad, ":00" with hour the floor
of the value and minute the fractional part times 60 rounded to nearest; the
minute lies in `[0, 60]` and is below 60 exactly when the fractional part is
below 119/120 — at 119/120 and above it rounds to 60, producing a minute
field "60" that is not a valid clock time. -/
theorem c5_amended (start end_ : ℚ) (hs0 : 0 ≤ start) (hs24 : start < 24)
    (he0 : 0 ≤ end_) (he24 : end_ < 24) :
    ((toTimeStrings start end_).1
        = jsPadStart 2 '0' (Int.repr ⌊start⌋) ++ ":"
            ++ jsPadStart 2 '0' (Int.repr (round ((start - ⌊start⌋) * 60))) ++ ":00"
      ∧ 0 ≤ ⌊start⌋ ∧ ⌊start⌋ < 24
      ∧ 0 ≤ round ((start - ⌊start⌋) * 60) ∧ round ((start - ⌊start⌋) * 60) ≤ 60
      ∧ (round ((start - ⌊start⌋) * 60) < 60 ↔ start - ⌊start⌋ < 119 / 120))
    ∧ ((toTimeStrings start end_).2
        = jsPadStart 2 '0' (Int.repr ⌊end_⌋) ++ ":"
            ++ jsPadStart 2 '0' (Int.repr (round ((end_ - ⌊end_⌋) * 60))) ++ ":00"
      ∧ 0 ≤ ⌊end_⌋ ∧ ⌊end_⌋ < 24
      ∧ 0 ≤ round ((end_ - ⌊end_⌋) * 60) ∧ round ((end_ - ⌊end_⌋) * 60) ≤ 60
      ∧ (round ((end_ - ⌊end_⌋) * 60) < 60 ↔ end_ - ⌊end_⌋ < 119 / 120)) :=
  ⟨toTimeStr_spec start hs0 hs24, toTimeStr_spec end_ he0 he24⟩

/-- Witness for the amended claim C5 at the spec's example value 13.5, which
maps to "13:30:00". -/
theorem c5_witness :
    ((0:ℚ) ≤ qHalf13 ∧ qHalf13 < 24)
      ∧ (toTimeStrings qHalf13 qHalf13).1
          = jsPadStart 2 '0' (Int.repr ⌊qHalf13⌋) ++ ":"
              ++ jsPadStart 2 '0' (Int.repr (round ((qHalf13 - ⌊qHalf13⌋) * 60))) ++ ":00"
      ∧ (toTimeStrings qHalf13 qHalf13).1 = "13:30:00" :=
  ⟨⟨by decide, by decide⟩,
    ((c5_amended qHalf13 qHalf13 (by decide) (by decide) (by decide) (by decide)).1).1,
    by decide⟩

/-! ### Recording-Task Deriver (25live createRecordingTasks module) -/

/-- Value of a digit string (big-endian), as JS `Number` computes it on the
digit-only components of a time field. -/
def digitsToNat (cs : List Char) : ℕ :=
  cs.foldl (fun acc c => 10 * acc + (c.toNat - 48)) 0

/-- JS `Number(component)` for a component of a `HH:MM:SS`-style field: the
empty string coerces to 0, a digit string to its value, and any other
component (the "non-numeric" case of the spec) to NaN, modelled as `none`. -/
def jsNumberOfTimeField (s : String) : Option ℕ :=
  if s.data.isEmpty then some 0
  else if s.data.all (·.isDigit) then some (digitsToNat s.data) else none

/-- `parseTimeToSeconds` from the 25live utils module: `none` as input
models a value that is not a string (the `typeof` guard), `none` as output
models the null result.  `Math.floor(seconds)` is the identity on the
natural-valued components. -/
def parseTimeToSeconds (timeStr : Option String) : Option ℕ :=
  match timeStr with
  | none => none
  | some s =>
    let parts := (jsSplitOnChar ':' s).map jsNumberOfTimeField
    if parts.any (·.isNone) then none
    else
      let nums := parts.map (fun p => p.getD 0)
      some (nums.getD 0 0 * 3600 + nums.getD 1 0 * 60 + nums.getD 2 0)

/-- `formatSecondsToTime` from the 25live utils module. -/
def formatSecondsToTime (totalSeconds : ℕ) : String :=
  jsPadStart 2 '0' (Nat.repr (totalSeconds / 3600)) ++ ":"
    ++ jsPadStart 2 '0' (Nat.repr (totalSeconds % 3600 / 60)) ++ ":"
    ++ jsPadStart 2 '0' (Nat.repr (totalSeconds % 60))

/-- A simplified resource record: `itemName`, `quantity`, `instruction`
(the projection produced by `parseEventResources`). -/
structure Resource where
  itemName : Option String
  quantity : Option ℤ
  instruction : Option String
deriving DecidableEq

/-- The fields of an event record that `createRecordingTasks` reads; a
`none` time field models a missing or non-string value. -/
structure RTEvent where
  id : Option ℕ
  date : Option String
  start_time : Option String
  end_time : Option String

/-- One emitted recording-check task (the impure `created_at`/`updated_at`
wall-clock timestamps are omitted). -/
structure RecordingTask where
  event_id : Option ℕ
  taskType : String
  resource_item_name : String
  date : Option String
  time : String

/-- The fixed recording-resource tag that resource names are matched
against. -/
def recordingResourceTag : String := "KSM-KGH-VIDEO-RECORDING"

/-- `createRecordingTasks` from the 25live utils module; `none` arguments
model null/undefined inputs. -/
def createRecordingTasks (event : Option RTEvent) (resource : Option Resource) :
    List RecordingTask :=
  match event, resource with
  | none, _ => []
  | some _, none => []
  | some event, some resource =>
    let resourceName := resource.itemName.getD ""
    let hasVideoRecordingResource := jsStartsWith (jsToUpper resourceName) recordingResourceTag
    if !hasVideoRecordingResource then []
    else
      match parseTimeToSeconds event.start_time, parseTimeToSeconds event.end_time with
      | some startSeconds, some endSeconds =>
        let durationSeconds : ℤ := (endSeconds : ℤ) - (startSeconds : ℤ)
        if durationSeconds ≤ 0 then []
        else
          let totalChecks := durationSeconds.toNat / 1800
          if totalChecks = 0 then []
          else
            (List.range totalChecks).map fun index =>
              { event_id := event.id, taskType := "RECORDING CHECK",
                resource_item_name := resourceName, date := event.date,
                time := formatSecondsToTime (startSeconds + index * 1800) }
      | _, _ => []

/-- Claim C4: for an event whose times parse to `s` and `e` seconds and a
resource whose name case-insensitively starts with the recording tag,
no task is emitted when `e - s <= 0`, and otherwise exactly
`floor((e - s) / 1800)` tasks are emitted, the `i`-th carrying the time
`s + i * 1800` seconds rendered as `HH:MM:SS`. -/
theorem c4_recording_tasks (event : RTEvent) (resource : Resource) (s e : ℕ)
    (hres : jsStartsWith (jsToUpper (resource.itemName.getD "")) recordingResourceTag = true)
    (hs : parseTimeToSeconds event.start_time = some s)
    (he : parseTimeToSeconds event.end_time = some e) :
    ((e : ℤ) - (s : ℤ) ≤ 0 → createRecordingTasks (some event) (some resource) = [])
    ∧ (0 < (e : ℤ) - (s : ℤ) →
        (createRecordingTasks (some event) (some resource)).length = (e - s) / 1800
        ∧ ∀ i, ∀ hi : i < (createRecordingTasks (some event) (some resource)).length,
            ((createRecordingTasks (some event) (some resource)).get ⟨i, hi⟩).time
              = formatSecondsToTime (s + i * 1800)) := by
  have hform : createRecordingTasks (some event) (some resource)
      = if (e : ℤ) - (s : ℤ) ≤ 0 then []
        else if (e - s) / 1800 = 0 then ([] : List RecordingTask)
        else (List.range ((e - s) / 1800)).map fun index =>
          { event_id := event.id, taskType := "RECORDING CHECK",
            resource_item_name := resource.itemName.getD "", date := event.date,
            time := formatSecondsToTime (s + index * 1800) } := by
    simp only [createRecordingTasks, hres, hs, he, Bool.not_true, Bool.false_eq_true,
      if_false, Int.toNat_sub]
  constructor
  · intro h
    rw [hform, if_pos h]
  · intro h
    rw [hform, if_neg (not_le.mpr h)]
    rcases Nat.eq_zero_or_pos ((e - s) / 1800) with hz | hz
    · rw [if_pos hz, hz]
      exact ⟨rfl, fun i hi => absurd hi (by simp)⟩
    · rw [if_neg hz.ne']
      refine ⟨by simp, fun i hi => ?_⟩
      simp only [List.get_eq_getElem, List.getElem_map, List.getElem_range]

/-- The spec's recording-task example event: 09:00:00 to 10:30:00. -/
def rtEventRec : RTEvent :=
  { id := some 1, date := some "2025-07-15",
    start_time := some "09:00:00", end_time := some "10:30:00" }

/-- The spec's recording-task example resource. -/
def resRec : Resource :=
  { itemName := some "KSM-KGH-VIDEO-RECORDING-A", quantity := some 1, instruction := none }

/-- Witness for claim C4 at the spec's example: exactly 3 tasks at 09:00:00,
09:30:00 and 10:00:00. -/
theorem c4_witness :
    (jsStartsWith (jsToUpper (resRec.itemName.getD "")) recordingResourceTag = true
      ∧ parseTimeToSeconds rtEventRec.start_time = some 32400
      ∧ parseTimeToSeconds rtEventRec.end_time = some 37800
      ∧ (0:ℤ) < (37800 : ℤ) - (32400 : ℤ))
    ∧ (createRecordingTasks (some rtEventRec) (some resRec)).length = (37800 - 32400) / 1800
    ∧ (createRecordingTasks (some rtEventRec) (some resRec)).map (fun t => t.time)
        = ["09:00:00", "09:30:00", "10:00:00"] :=
  ⟨⟨by decide, by decide, by decide, by decide⟩,
    ((c4_recording_tasks rtEventRec resRec 32400 37800 (by decide) (by decide)
        (by decide)).2 (by decide)).1,
    by decide⟩

/-- Claim C10: `createRecordingTasks` degrades to the empty task list at its
boundary: null/undefined event or resource, a resource name without the
recording tag, and a start or end time that does not parse (not a string, or
a non-numeric component) all yield `[]`. -/
theorem c10_graceful (event : RTEvent) (resource : Resource) :
    createRecordingTasks none (some resource) = []
    ∧ createRecordingTasks (some event) none = []
    ∧ createRecordingTasks none none = []
    ∧ (jsStartsWith (jsToUpper (resource.itemName.getD "")) recordingResourceTag = false →
        createRecordingTasks (some event) (some resource) = [])
    ∧ (parseTimeToSeconds event.start_time = none →
        createRecordingTasks (some event) (some resource) = [])
    ∧ (parseTimeToSeconds event.end_time = none →
        createRecordingTasks (some event) (some resource) = []) := by
  refine ⟨rfl, rfl, rfl, ?_, ?_, ?_⟩
  · intro h
    simp [createRecordingTasks, h]
  · intro h
    cases hpre : jsStartsWith (jsToUpper (resource.itemName.getD "")) recordingResourceTag
    · simp [createRecordingTasks, hpre]
    · simp [createRecordingTasks, hpre, h]
  · intro h
    cases hpre : jsStartsWith (jsToUpper (resource.itemName.getD "")) recordingResourceTag
    · simp [createRecordingTasks, hpre]
    · cases hps : parseTimeToSeconds event.start_time
      · simp [createRecordingTasks, hpre, hps]
      · simp [createRecordingTasks, hpre, hps, h]

/-- An event whose start time does not parse as a time. -/
def rtEventBad : RTEvent :=
  { id := none, date := none, start_time := some "oops", end_time := some "09:00:00" }

/-- A resource whose name does not carry the recording tag. -/
def resPlain : Resource :=
  { itemName := some "PROJECTOR", quantity := none, instruction := none }

/-- Witness for claim C10 at concrete degenerate inputs. -/
theorem c10_witness :
    (jsStartsWith (jsToUpper (resPlain.itemName.getD "")) recordingResourceTag = false
      ∧ parseTimeToSeconds rtEventBad.start_time = none)
    ∧ createRecordingTasks (some rtEventBad) (some resPlain) = []
    ∧ createRecordingTasks (some rtEventRec) (some resPlain) = []
    ∧ createRecordingTasks none (some resPlain) = [] :=
  ⟨⟨by decide, by decide⟩,
    (c10_graceful rtEventBad resPlain).2.2.2.2.1 (by decide),
    (c10_graceful rtEventRec resPlain).2.2.2.1 (by decide),
    (c10_graceful rtEventBad resPlain).1⟩

/-! ### Room-name normalization (parseRoomName) -/

/-- Match of the regex `K(GHL\d+)` at the start of the character list:
returns the greedy digit run when the head is "KGHL" followed by at least
one digit. -/
def lMatchAt (cs : List Char) : Option (List Char) :=
  if cs.take 4 = ['K', 'G', 'H', 'L'] then
    if (cs.drop 4).takeWhile (·.isDigit) = [] then none
    else some ((cs.drop 4).takeWhile (·.isDigit))
  else none

/-- Leftmost match of `K(GHL\d+)`: try every position left to right. -/
def scanLCode : List Char → Option (List Char)
  | [] => none
  | c :: rest =>
    match lMatchAt (c :: rest) with
    | some ds => some ds
    | none => scanLCode rest

/-- Match of the regex `K(GH\d+[AB]?)` at the start of the character list:
returns the greedy digit run and the optional one-character suffix. -/
def rMatchAt (cs : List Char) : Option (List Char × List Char) :=
  if cs.take 3 = ['K', 'G', 'H'] then
    if (cs.drop 3).takeWhile (·.isDigit) = [] then none
    else
      match ((cs.drop 3).dropWhile (·.isDigit)).head? with
      | some a =>
        if a = 'A' ∨ a = 'B' then some ((cs.drop 3).takeWhile (·.isDigit), [a])
        else some ((cs.drop 3).takeWhile (·.isDigit), [])
      | none => some ((cs.drop 3).takeWhile (·.isDigit), [])
  else none

/-- Leftmost match of `K(GH\d+[AB]?)`. -/
def scanRCode : List Char → Option (List Char × List Char)
  | [] => none
  | c :: rest =>
    match rMatchAt (c :: rest) with
    | some m => some m
    | none => scanRCode rest

/-- `parseRoomName` from `utils.js`: a falsy (missing or empty) subject name
yields null; otherwise the L-room pattern is tried over the whole string
first, then the plain-room pattern; the matched code is rewritten with a
space inserted after "GH" (the two `replace` calls always succeed on the
captured code, so the rewritten string is assembled directly). -/
def parseRoomName (subjectItemName : Option String) : Option String :=
  match subjectItemName with
  | none => none
  | some s =>
    if s.data = [] then none
    else
      match scanLCode s.data with
      | some ds => some (String.mk ('G' :: 'H' :: ' ' :: 'L' :: ds))
      | none =>
        match scanRCode s.data with
        | some m => some (String.mk ('G' :: 'H' :: ' ' :: (m.1 ++ m.2)))
        | none => none

/-- The claim-side notion of containing an L-room code: some position reads
"KGHL" followed by a digit. -/
def hasLCode (cs : List Char) : Prop :=
  ∃ pre d post, cs = pre ++ ('K' :: 'G' :: 'H' :: 'L' :: d :: post) ∧ d.isDigit = true

/-- The claim-side notion of containing a plain room code: some position
reads "KGH" followed by a digit. -/
def hasRCode (cs : List Char) : Prop :=
  ∃ pre d post, cs = pre ++ ('K' :: 'G' :: 'H' :: d :: post) ∧ d.isDigit = true

theorem lMatchAt_none_iff (cs : List Char) :
    lMatchAt cs = none
      ↔ ¬ ∃ d post, cs = 'K' :: 'G' :: 'H' :: 'L' :: d :: post ∧ d.isDigit = true := by
  rw [lMatchAt]
  split_ifs with h4 hds
  · refine iff_of_true rfl ?_
    rintro ⟨d, post, hdec, hdig⟩
    rw [hdec] at hds
    simp [hdig] at hds
  · refine iff_of_false (by simp) ?_
    intro hno
    have hcs : cs = 'K' :: 'G' :: 'H' :: 'L' :: cs.drop 4 := by
      conv_lhs => rw [← List.take_append_drop 4 cs]
      rw [h4]
      rfl
    rcases hd : cs.drop 4 with _ | ⟨d, rest⟩
    · rw [hd] at hds; simp at hds
    · rw [hd] at hds
      by_cases hdig : d.isDigit = true
      · exact hno ⟨d, rest, by rw [hcs, hd], hdig⟩
      · simp [List.takeWhile_cons, hdig] at hds
  · refine iff_of_true rfl ?_
    rintro ⟨d, post, hdec, _⟩
    rw [hdec] at h4
    simp at h4

theorem rMatchAt_none_iff (cs : List Char) :
    rMatchAt cs = none
      ↔ ¬ ∃ d post, cs = 'K' :: 'G' :: 'H' :: d :: post ∧ d.isDigit = true := by
  rw [rMatchAt]
  split_ifs with h3 hds
  · refine iff_of_true rfl ?_
    rintro ⟨d, post, hdec, hdig⟩
    rw [hdec] at hds
    simp [hdig] at hds
  · refine iff_of_false ?_ ?_
    · cases hh : ((cs.drop 3).dropWhile (·.isDigit)).head? with
      | none => simp [hh]
      | some a => by_cases hab : a = 'A' ∨ a = 'B' <;> simp [hh, hab]
    · intro hno
      have hcs : cs = 'K' :: 'G' :: 'H' :: cs.drop 3 := by
        conv_lhs => rw [← List.take_append_drop 3 cs]
        rw [h3]
        rfl
      rcases hd : cs.drop 3 with _ | ⟨d, rest⟩
      · rw [hd] at hds; simp at hds
      · rw [hd] at hds
        by_cases hdig : d.isDigit = true
        · exact hno ⟨d, rest, by rw [hcs, hd], hdig⟩
        · simp [List.takeWhile_cons, hdig] at hds
  · refine iff_of_true rfl ?_
    rintro ⟨d, post, hdec, _⟩
    rw [hdec] at h3
    simp at h3

theorem hasLCode_cons (c : Char) (rest : List Char) :
    hasLCode (c :: rest)
      ↔ (∃ d post, c :: rest = 'K' :: 'G' :: 'H' :: 'L' :: d :: post ∧ d.isDigit = true)
        ∨ hasLCode rest := by
  constructor
  · rintro ⟨pre, d, post, hdec, hdig⟩
    cases pre with
    | nil => exact Or.inl ⟨d, post, by simpa using hdec, hdig⟩
    | cons p pre' =>
      refine Or.inr ⟨pre', d, post, ?_, hdig⟩
      have := hdec
      simp only [List.cons_append, List.cons.injEq] at this
      exact this.2
  · rintro (⟨d, post, hdec, hdig⟩ | ⟨pre, d, post, hdec, hdig⟩)
    · exact ⟨[], d, post, by simpa using hdec, hdig⟩
    · exact ⟨c :: pre, d, post, by simp [hdec], hdig⟩

theorem hasRCode_cons (c : Char) (rest : List Char) :
    hasRCode (c :: rest)
      ↔ (∃ d post, c :: rest = 'K' :: 'G' :: 'H' :: d :: post ∧ d.isDigit = true)
        ∨ hasRCode rest := by
  constructor
  · rintro ⟨pre, d, post, hdec, hdig⟩
    cases pre with
    | nil => exact Or.inl ⟨d, post, by simpa using hdec, hdig⟩
    | cons p pre' =>
      refine Or.inr ⟨pre', d, post, ?_, hdig⟩
      have := hdec
      simp only [List.cons_append, List.cons.injEq] at this
      exact this.2
  · rintro (⟨d, post, hdec, hdig⟩ | ⟨pre, d, post, hdec, hdig⟩)
    · exact ⟨[], d, post, by simpa using hdec, hdig⟩
    · exact ⟨c :: pre, d, post, by simp [hdec], hdig⟩

theorem scanLCode_none_iff (cs : List Char) : scanLCode cs = none ↔ ¬ hasLCode cs := by
  induction cs with
  | nil =>
    refine iff_of_true rfl ?_
    rintro ⟨pre, d, post, hdec, _⟩
    exact absurd hdec (by simp)
  | cons c rest ih =>
    rw [scanLCode]
    cases hm : lMatchAt (c :: rest) with
    | some ds =>
      refine iff_of_false (by simp) ?_
      intro hno
      rw [hasLCode_cons] at hno
      have hno2 := not_or.mp hno
      have hnone : lMatchAt (c :: rest) = none := (lMatchAt_none_iff (c :: rest)).mpr hno2.1
      rw [hm] at hnone
      exact Option.noConfusion hnone
    | none =>
      show scanLCode rest = none ↔ ¬ hasLCode (c :: rest)
      rw [ih, hasLCode_cons]
      have hhead := (lMatchAt_none_iff (c :: rest)).mp hm
      constructor
      · intro hnr
        rintro (hh | hr)
        · exact hhead hh
        · exact hnr hr
      · intro hno hr
        exact hno (Or.inr hr)

theorem scanRCode_none_iff (cs : List Char) : scanRCode cs = none ↔ ¬ hasRCode cs := by
  induction cs with
  | nil =>
    refine iff_of_true rfl ?_
    rintro ⟨pre, d, post, hdec, _⟩
    exact absurd hdec (by simp)
  | cons c rest ih =>
    rw [scanRCode]
    cases hm : rMatchAt (c :: rest) with
    | some m =>
      refine iff_of_false (by simp) ?_
      intro hno
      rw [hasRCode_cons] at hno
      have hno2 := not_or.mp hno
      have hnone : rMatchAt (c :: rest) = none := (rMatchAt_none_iff (c :: rest)).mpr hno2.1
      rw [hm] at hnone
      exact Option.noConfusion hnone
    | none =>
      show scanRCode rest = none ↔ ¬ hasRCode (c :: rest)
      rw [ih, hasRCode_cons]
      have hhead := (rMatchAt_none_iff (c :: rest)).mp hm
      constructor
      · intro hnr
        rintro (hh | hr)
        · exact hhead hh
        · exact hnr hr
      · intro hno hr
        exact hno (Or.inr hr)

/-- Claim C9: the spec's three examples hold; an input containing no room
code (neither "KGHL"+digit nor "KGH"+digit anywhere) yields an absent room
name; and any successful parse certifies the presence of a room code and
starts with "GH " (the space inserted after "GH"). -/
theorem c9_parse_room_name :
    parseRoomName (some "KGH1110 (70)") = some "GH 1110"
    ∧ parseRoomName (some "KGHL110") = some "GH L110"
    ∧ parseRoomName (some "random") = none
    ∧ (∀ s : String, ¬ hasLCode s.data → ¬ hasRCode s.data → parseRoomName (some s) = none)
    ∧ (∀ s r, parseRoomName (some s) = some r →
        (hasLCode s.data ∨ hasRCode s.data) ∧ ∃ t, r.data = 'G' :: 'H' :: ' ' :: t) := by
  refine ⟨by decide, by decide, by decide, ?_, ?_⟩
  · intro s hL hR
    have hLs : scanLCode s.data = none := (scanLCode_none_iff _).mpr hL
    have hRs : scanRCode s.data = none := (scanRCode_none_iff _).mpr hR
    by_cases hnil : s.data = []
    · simp [parseRoomName, hnil]
    · simp [parseRoomName, hnil, hLs, hRs]
  · intro s r hr
    by_cases hnil : s.data = []
    · simp [parseRoomName, hnil] at hr
    · cases hL : scanLCode s.data with
      | some ds =>
        have hhas : hasLCode s.data := by
          by_contra hc
          rw [← scanLCode_none_iff] at hc
          rw [hL] at hc
          exact Option.noConfusion hc
        simp only [parseRoomName, hnil, if_false, hL] at hr
        refine ⟨Or.inl hhas, 'L' :: ds, ?_⟩
        have := hr
        simp only [Option.some.injEq] at this
        rw [← this]
      | none =>
        cases hR : scanRCode s.data with
        | some m =>
          have hhas : hasRCode s.data := by
            by_contra hc
            rw [← scanRCode_none_iff] at hc
            rw [hR] at hc
            exact Option.noConfusion hc
          simp only [parseRoomName, hnil, if_false, hL, hR] at hr
          refine ⟨Or.inr hhas, m.1 ++ m.2, ?_⟩
          simp only [Option.some.injEq] at hr
          rw [← hr]
        | none =>
          simp [parseRoomName, hnil, hL, hR] at hr

/-- Witness for claim C9: the no-code direction applied to "random" and the
positive direction applied to "KGHL110". -/
theorem c9_witness :
    (¬ hasLCode ("random" : String).data ∧ ¬ hasRCode ("random" : String).data
      ∧ parseRoomName (some "random") = none)
    ∧ (parseRoomName (some "KGHL110") = some "GH L110"
      ∧ (hasLCode ("KGHL110" : String).data ∨ hasRCode ("KGHL110" : String).data)) :=
  ⟨⟨(scanLCode_none_iff _).mp (by decide), (scanRCode_none_iff _).mp (by decide),
      c9_parse_room_name.2.2.2.1 "random"
        ((scanLCode_none_iff _).mp (by decide)) ((scanRCode_none_iff _).mp (by decide))⟩,
    ⟨c9_parse_room_name.2.1,
      (c9_parse_room_name.2.2.2.2 "KGHL110" "GH L110" c9_parse_room_name.2.1).1⟩⟩

/-! ### Raw data model: items, panels, reservations -/

/-- A node of the variant panel tree: an optional display name and a list of
child nodes. -/
inductive PanelItem where
  | mk (itemName : Option String) (item : List PanelItem)

/-- The display name of a panel node. -/
def PanelItem.itemName : PanelItem → Option String
  | .mk n _ => n

/-- The children of a panel node. -/
def PanelItem.item : PanelItem → List PanelItem
  | .mk _ l => l

/-- One tagged panel: `typeId` selects the interpretation of `item`. -/
structure Panel where
  typeId : Option ℤ
  item : List PanelItem

/-- The `defn` part of an item's detail payload. -/
structure Defn where
  panel : List Panel

/-- One reservation: a start date-time string and a resource list. -/
structure Rsv where
  startDt : Option String
  res : Option (List Resource)

/-- One `prof` entry holding reservations. -/
structure Prof where
  rsv : Option (List Rsv)

/-- The `occur` part of an item's detail payload. -/
structure Occur where
  prof : Option (List Prof)

/-- An item's detail payload (absent when detail retrieval failed). -/
structure ItemDetails where
  defn : Option Defn
  occur : Option Occur

/-- One raw room-booking record as handed to the pipeline.  The ids are the
source's non-negative integers; `start`/`end_` are decimal hours (the `end`
keyword forces the underscore); a `none` string field models an absent
value. -/
structure RawEventItem where
  itemId : ℕ
  itemId2 : ℕ
  subject_itemId : ℕ
  itemName : Option String
  subject_itemName : Option String
  subject_item_date : Option String
  start : ℚ
  end_ : ℚ
  itemDetails : Option ItemDetails

/-- `data.itemDetails?.defn?.panel || []`. -/
def panelsOf (data : RawEventItem) : List Panel :=
  match data.itemDetails with
  | none => []
  | some d =>
    match d.defn with
    | none => []
    | some defn => defn.panel

/-- `panel.item?.[i]?.itemName`. -/
def panelItemName (p : Panel) (i : ℕ) : Option String :=
  (p.item.get? i).bind PanelItem.itemName

/-- `panel.item?.[i]?.item?.[0]?.itemName`. -/
def panelSubName (p : Panel) (i : ℕ) : Option String :=
  (p.item.get? i).bind fun child => (child.item.get? 0).bind PanelItem.itemName

/-- Loop body of `getEventType` from `utils.js`: scan for a `typeId == 11`
panel, apply the two program-name overrides, otherwise fall back to the
third item's name when truthy, else continue with the next panel. -/
def getEventTypeAux : List Panel → Option String
  | [] => none
  | p :: rest =>
    if p.typeId == some 11 then
      if panelSubName p 6 == some "Kellogg Executive Education Programs"
          || panelSubName p 6 == some "Kellogg Executive MBA Program" then some "KEC"
      else if panelSubName p 8 == some "RES CMC, KSM" then some "CMC"
      else
        match panelItemName p 2 with
        | some t => if t = "" then getEventTypeAux rest else some t
        | none => getEventTypeAux rest
    else getEventTypeAux rest

/-- `getEventType` from `utils.js`. -/
def getEventType (data : RawEventItem) : Option String :=
  getEventTypeAux (panelsOf data)

/-- Loop body of `getOrganization`: first truthy sixth-item child name of a
`typeId == 11` panel. -/
def getOrganizationAux : List Panel → Option String
  | [] => none
  | p :: rest =>
    if p.typeId == some 11 then
      match panelSubName p 6 with
      | some org => if org = "" then getOrganizationAux rest else some org
      | none => getOrganizationAux rest
    else getOrganizationAux rest

/-- `getOrganization` from `utils.js`. -/
def getOrganization (data : RawEventItem) : Option String :=
  getOrganizationAux (panelsOf data)

/-- Loop body of `getLectureTitle`: first truthy second-item name of a
`typeId == 11` panel. -/
def getLectureTitleAux : List Panel → Option String
  | [] => none
  | p :: rest =>
    if p.typeId == some 11 then
      match panelItemName p 1 with
      | some t => if t = "" then getLectureTitleAux rest else some t
      | none => getLectureTitleAux rest
    else getLectureTitleAux rest

/-- `getLectureTitle` from `utils.js`. -/
def getLectureTitle (data : RawEventItem) : Option String :=
  getLectureTitleAux (panelsOf data)

/-- The regex replace `^Instructors:\s*` of the instructor extractor. -/
def stripInstructorsTag (s : String) : String :=
  if jsStartsWith s "Instructors:" then
    String.mk ((s.data.drop ("Instructors:".length)).dropWhile jsIsWs)
  else s

/-- The validity checks on a cleaned instructor string: non-empty, no
leading markup character, length strictly between 2 and 100, no curly
braces. -/
def cleanInstructorChecksOk (cleanName : String) : Bool :=
  cleanName != "" && !(jsStartsWith cleanName "<")
    && decide (2 < cleanName.length) && decide (cleanName.length < 100)
    && !(jsIncludesChar cleanName '\x7b') && !(jsIncludesChar cleanName '\x7d')

/-- Body of the instructor extraction for one truthy raw name: `some r`
means the JS function returns `r` (a list, or null when the split leaves
nothing), `none` means control falls through to the next panel. -/
def instructorsFromRaw (instructor : String) : Option (Option (List String)) :=
  if instructor = "" then none
  else
    let cleanName := jsTrim (stripInstructorsTag instructor)
    if cleanInstructorChecksOk cleanName then
      let instructors := ((jsSplitOnList "; " cleanName).map jsTrim).filter (fun name => name != "")
      some (if 0 < instructors.length then some instructors else none)
    else none

/-- Loop of `getInstructorNames` from `utils.js`: a `typeId == 12` panel is
read at `item[0].itemName`, a `typeId == 13` panel at
`item[0].item[0].itemName`; the first panel passing the checks decides the
result. -/
def getInstructorNamesAux : List Panel → Option (List String)
  | [] => none
  | p :: rest =>
    match (if p.typeId == some 12 then
            match panelItemName p 0 with
            | some instructor => instructorsFromRaw instructor
            | none => none
          else none) with
    | some r => r
    | none =>
      match (if p.typeId == some 13 then
              match panelSubName p 0 with
              | some instructor => instructorsFromRaw instructor
              | none => none
            else none) with
      | some r => r
      | none => getInstructorNamesAux rest

/-- `getInstructorNames` from `utils.js`. -/
def getInstructorNames (data : RawEventItem) : Option (List String) :=
  getInstructorNamesAux (panelsOf data)

/-- `parseEventResources` from `utils.js`: flatten all reservation lists,
select the first reservation whose start date equals the event's date, and
project its resources.  (When `subject_item_date` is absent the JS code
would throw inside the `find` callback; that unreachable error path is
modelled by comparing against the empty string.) -/
def parseEventResources (event : RawEventItem) : List Resource :=
  match event.itemDetails with
  | none => []
  | some det =>
    match det.occur with
    | none => []
    | some occur =>
      match occur.prof with
      | none => []
      | some profArray =>
        let allRsv := profArray.foldl (fun acc prof =>
          match prof.rsv with
          | some r => acc ++ r
          | none => acc) []
        if allRsv.length = 0 then []
        else
          match allRsv.find? (fun rsv =>
            match rsv.startDt with
            | none => false
            | some sd =>
              (jsSplitOnChar 'T' sd).headD ""
                == (jsSplitOnChar 'T' (event.subject_item_date.getD "")).headD "") with
          | none => []
          | some matchingReservation =>
            match matchingReservation.res with
            | none => []
            | some res =>
              res.map fun r =>
                { itemName := r.itemName, quantity := r.quantity,
                  instruction := r.instruction }

/-! ### Record Filter -/

/-- The filter predicate of `transformRawEventsToEvents`: drop private or
closed zero-id bookings, zero `itemId2`, and subject names carrying an
ampersand. -/
def keepRaw (event : RawEventItem) : Bool :=
  !(event.itemId == 0
      && (event.itemName == some "(Private)" || event.itemName == some "Closed"))
    && event.itemId2 != 0
    && !(match event.subject_itemName with
        | some s => jsIncludesChar s '&'
        | none => false)

/-- The Record Filter stage: `rawData.filter(keepRaw)`. -/
def recordFilter (rawData : List RawEventItem) : List RawEventItem :=
  rawData.filter keepRaw

/-- The claim-side drop condition of the Record Filter. -/
def dropsRaw (e : RawEventItem) : Prop :=
  (e.itemId = 0 ∧ (e.itemName = some "(Private)" ∨ e.itemName = some "Closed"))
  ∨ e.itemId2 = 0
  ∨ ∃ s, e.subject_itemName = some s ∧ '&' ∈ s.data

theorem keepRaw_iff (e : RawEventItem) : keepRaw e = true ↔ ¬ dropsRaw e := by
  cases hs : e.subject_itemName with
  | none =>
    simp only [keepRaw, dropsRaw, hs, jsIncludesChar]
    simp [not_or]
    tauto
  | some s =>
    simp only [keepRaw, dropsRaw, hs, jsIncludesChar]
    simp [not_or, List.elem_iff]
    tauto

/-- Claim C6: the Record Filter keeps exactly the records violating none of
the three drop conditions, passing survivors through unchanged and in their
original relative order (Sublist); in particular an item with `itemId = 0`
but a non-placeholder name survives the first condition. -/
theorem c6_record_filter (l : List RawEventItem) :
    (recordFilter l).Sublist l
    ∧ ∀ e, e ∈ recordFilter l ↔ e ∈ l ∧ ¬ dropsRaw e := by
  refine ⟨List.filter_sublist l, fun e => ?_⟩
  rw [recordFilter, List.mem_filter, keepRaw_iff]

/-! ### Insertion-ordered grouping (the reduce-into-object pattern of both
merge passes).  Keys are the composite strings the source builds; groups are
materialised by filtering, which preserves the original in-group order, and
the object's keys iterate in insertion order because the composite keys are
never array indices. -/

/-- Record a key, appending it if unseen (object property creation order). -/
def insertKey (ks : List String) (k : String) : List String :=
  if ks.contains k then ks else ks ++ [k]

/-- The keys of `l` in order of first occurrence, starting from `acc`. -/
def groupKeysFrom {α : Type} (key : α → String) (acc : List String) (l : List α) :
    List String :=
  l.foldl (fun ks e => insertKey ks (key e)) acc

/-- The keys of `l` in order of first occurrence. -/
def groupKeys {α : Type} (key : α → String) (l : List α) : List String :=
  groupKeysFrom key [] l

/-- The group of `l` at key `k`, in original order. -/
def groupOf {α : Type} (key : α → String) (l : List α) (k : String) : List α :=
  l.filter (fun e => key e == k)

theorem insertKey_mem (ks : List String) (k k' : String) :
    k ∈ insertKey ks k' ↔ k ∈ ks ∨ k = k' := by
  rw [insertKey]
  split_ifs with h
  · rw [List.elem_iff] at h
    constructor
    · exact Or.inl
    · rintro (hk | rfl)
      · exact hk
      · exact h
  · simp

theorem insertKey_nodup (ks : List String) (k : String) (h : ks.Nodup) :
    (insertKey ks k).Nodup := by
  rw [insertKey]
  split_ifs with hc
  · exact h
  · rw [List.elem_iff] at hc
    simpa [List.nodup_append, h] using hc

theorem groupKeysFrom_mem {α : Type} (key : α → String) (l : List α) :
    ∀ acc k, k ∈ groupKeysFrom key acc l ↔ k ∈ acc ∨ ∃ e ∈ l, key e = k := by
  induction l with
  | nil => intro acc k; simp [groupKeysFrom]
  | cons e rest ih =>
    intro acc k
    show k ∈ groupKeysFrom key (insertKey acc (key e)) rest ↔ _
    rw [ih, insertKey_mem]
    constructor
    · rintro ((hk | rfl) | ⟨e', he', rfl⟩)
      · exact Or.inl hk
      · exact Or.inr ⟨e, by simp⟩
      · exact Or.inr ⟨e', by simp [he']⟩
    · rintro (hk | ⟨e', he', rfl⟩)
      · exact Or.inl (Or.inl hk)
      · rcases List.mem_cons.mp he' with rfl | he''
        · exact Or.inl (Or.inr rfl)
        · exact Or.inr ⟨e', he'', rfl⟩

theorem groupKeysFrom_nodup {α : Type} (key : α → String) (l : List α) :
    ∀ acc, acc.Nodup → (groupKeysFrom key acc l).Nodup := by
  induction l with
  | nil => intro acc h; exact h
  | cons e rest ih =>
    intro acc h
    exact ih (insertKey acc (key e)) (insertKey_nodup _ _ h)

theorem groupKeys_nodup {α : Type} (key : α → String) (l : List α) :
    (groupKeys key l).Nodup :=
  groupKeysFrom_nodup key l [] List.nodup_nil

theorem groupKeys_mem {α : Type} (key : α → String) (l : List α) (k : String) :
    k ∈ groupKeys key l ↔ ∃ e ∈ l, key e = k := by
  rw [groupKeys, groupKeysFrom_mem]
  simp

theorem groupKeysFrom_all_const {α : Type} (key : α → String) (k0 : String) (l : List α)
    (hall : ∀ e ∈ l, key e = k0) :
    ∀ acc, k0 ∈ acc → groupKeysFrom key acc l = acc := by
  induction l with
  | nil => intro acc _; rfl
  | cons e rest ih =>
    intro acc hmem
    show groupKeysFrom key (insertKey acc (key e)) rest = acc
    rw [hall e (by simp)]
    rw [insertKey, if_pos (List.elem_iff.mpr hmem)]
    exact ih (fun e' he' => hall e' (by simp [he'])) acc hmem

theorem groupKeysFrom_const_ne_nil {α : Type} (key : α → String) (k0 : String) (l : List α)
    (hall : ∀ e ∈ l, key e = k0) (hne : l ≠ []) :
    ∀ acc, groupKeysFrom key acc l = insertKey acc k0 := by
  cases l with
  | nil => exact absurd rfl hne
  | cons e rest =>
    intro acc
    show groupKeysFrom key (insertKey acc (key e)) rest = insertKey acc k0
    rw [hall e (by simp)]
    exact groupKeysFrom_all_const key k0 rest
      (fun e' he' => hall e' (by simp [he'])) _ ((insertKey_mem _ _ _).mpr (Or.inr rfl))

theorem groupKeysFrom_append {α : Type} (key : α → String) (acc : List String)
    (l1 l2 : List α) :
    groupKeysFrom key acc (l1 ++ l2) = groupKeysFrom key (groupKeysFrom key acc l1) l2 :=
  List.foldl_append _ _ _ _

theorem insertKey_of_not_mem (acc : List String) (k : String) (h : k ∉ acc) :
    insertKey acc k = acc ++ [k] := by
  rw [insertKey, if_neg]
  intro hc
  exact h (List.elem_iff.mp hc)

theorem groupKeysFrom_blocks {α : Type} (key : α → String) (ks : List String)
    (B : String → List α) :
    ks.Nodup → (∀ k ∈ ks, ∀ e ∈ B k, key e = k) → (∀ k ∈ ks, B k ≠ []) →
    ∀ acc, (∀ k ∈ ks, k ∉ acc) → groupKeysFrom key acc (ks.flatMap B) = acc ++ ks := by
  induction ks with
  | nil => intro _ _ _ acc _; simp [groupKeysFrom]
  | cons k ks' ih =>
    intro hnd hk hne acc hdisj
    rw [List.flatMap_cons, groupKeysFrom_append]
    rw [groupKeysFrom_const_ne_nil key k (B k) (hk k (by simp)) (hne k (by simp))]
    rw [insertKey_of_not_mem acc k (hdisj k (by simp))]
    rw [ih (List.nodup_cons.mp hnd).2
      (fun k' hk' => hk k' (by simp [hk']))
      (fun k' hk' => hne k' (by simp [hk']))
      (acc ++ [k])
      (fun k' hk' => by
        simp only [List.mem_append, List.mem_singleton]
        rintro (hmem | rfl)
        · exact hdisj k' (by simp [hk']) hmem
        · exact (List.nodup_cons.mp hnd).1 hk')]
    simp

theorem groupKeys_blocks {α : Type} (key : α → String) (ks : List String)
    (B : String → List α) (hnd : ks.Nodup) (hk : ∀ k ∈ ks, ∀ e ∈ B k, key e = k)
    (hne : ∀ k ∈ ks, B k ≠ []) :
    groupKeys key (ks.flatMap B) = ks := by
  rw [groupKeys, groupKeysFrom_blocks key ks B hnd hk hne [] (by simp)]
  simp

theorem flatMap_filter_of_not_mem {α : Type} (key : α → String) (ks : List String)
    (B : String → List α) (k : String)
    (hk : ∀ k' ∈ ks, ∀ e ∈ B k', key e = k') (hnot : k ∉ ks) :
    (ks.flatMap B).filter (fun e => key e == k) = [] := by
  induction ks with
  | nil => simp
  | cons k' ks' ih =>
    rw [List.flatMap_cons, List.filter_append]
    rw [List.filter_eq_nil_iff.mpr (fun e he => by
      have := hk k' (by simp) e he
      simp only [beq_iff_eq, this]
      intro hkk
      exact hnot (by simp [← hkk]))]
    rw [ih (fun k'' hk'' => hk k'' (by simp [hk''])) (fun hmem => hnot (by simp [hmem]))]
    rfl

theorem flatMap_filter_eq_block {α : Type} (key : α → String) (ks : List String)
    (B : String → List α) (k : String) (hnd : ks.Nodup)
    (hk : ∀ k' ∈ ks, ∀ e ∈ B k', key e = k') (hmem : k ∈ ks) :
    (ks.flatMap B).filter (fun e => key e == k) = B k := by
  induction ks with
  | nil => exact absurd hmem (by simp)
  | cons k' ks' ih =>
    rw [List.flatMap_cons, List.filter_append]
    rcases List.mem_cons.mp hmem with rfl | hmem'
    · rw [List.filter_eq_self.mpr (fun e he => by
        simp [hk k (by simp) e he])]
      rw [flatMap_filter_of_not_mem key ks' B k
        (fun k'' hk'' => hk k'' (by simp [hk''])) (List.nodup_cons.mp hnd).1]
      simp
    · rw [List.filter_eq_nil_iff.mpr (fun e he => by
        have := hk k' (by simp) e he
        simp only [beq_iff_eq, this]
        intro hkk
        exact (List.nodup_cons.mp hnd).1 (hkk ▸ hmem'))]
      rw [ih (List.nodup_cons.mp hnd).2
        (fun k'' hk'' => hk k'' (by simp [hk''])) hmem']
      simp

theorem flatMap_congr_keys {α : Type} (ks : List String) (f g : String → List α)
    (h : ∀ k ∈ ks, f k = g k) : ks.flatMap f = ks.flatMap g := by
  induction ks with
  | nil => rfl
  | cons k ks' ih =>
    rw [List.flatMap_cons, List.flatMap_cons, h k (by simp),
      ih (fun k' hk' => h k' (by simp [hk']))]

/-! ### Canonical Events and the Adjacent-Room Merger -/

/-- The canonical pipeline Event (§3 of the spec); the impure `updated_at`
timestamp is omitted. -/
structure Event where
  item_id : ℕ
  item_id2 : ℕ
  id : ℕ
  date : String
  start_time : String
  end_time : String
  event_name : Option String
  event_type : Option String
  organization : Option String
  instructor_names : Option (List String)
  lecture_title : Option String
  room_name : Option String
  resources : List Resource
  raw : RawEventItem

/-- Template-literal rendering of a field whose absence is `undefined`. -/
def jsShowUndef (o : Option String) : String := o.getD "undefined"

/-- Template-literal rendering of a field whose absence is `null`. -/
def jsShowNull (o : Option String) : String := o.getD "null"

/-- The grouping key of the adjacent-room merger. -/
def evKey (e : Event) : String :=
  e.date ++ "_" ++ jsShowUndef e.event_name ++ "_" ++ e.start_time

/-- `e.room_name === r` for a string literal `r`. -/
def roomIs (r : String) (e : Event) : Bool := e.room_name == some r

/-- `eventGroup.find(e => e.room_name === r)`, as the index of the first
match (JS marks processed events by object identity, which positions model
faithfully, including duplicate values). -/
def findRoomIdx : List Event → String → Option ℕ
  | [], _ => none
  | e :: rest, r =>
    if roomIs r e then some 0 else (findRoomIdx rest r).map (· + 1)

/-- One room-pair block of the merger: when both rooms are found, produce
the merged copy of the first-listed member and mark both indices processed. -/
def mergeForPair (g : List Event) (ra rb lab : String) : List Event × List ℕ :=
  match findRoomIdx g ra, findRoomIdx g rb with
  | some ia, some ib =>
    match g.get? ia with
    | some ea => ([{ ea with room_name := some lab }], [ia, ib])
    | none => ([], [])
  | _, _ => ([], [])

/-- The trailing forEach of the merger: push group members whose index was
not marked processed, in order. -/
def keepUnprocessed (processed : List ℕ) : ℕ → List Event → List Event
  | _, [] => []
  | i, e :: rest =>
    if processed.contains i then keepUnprocessed processed (i + 1) rest
    else e :: keepUnprocessed processed (i + 1) rest

/-- The merged events of one group, in the fixed pair order 1420/1430,
2410A/B, 2420A/B, 2430A/B (the extra logging in the 2410 block of the
source has no semantic effect). -/
def mergedOf (g : List Event) : List Event :=
  (mergeForPair g "GH 1420" "GH 1430" "GH 1420&30").1
    ++ (mergeForPair g "GH 2410A" "GH 2410B" "GH 2410A&B").1
    ++ (mergeForPair g "GH 2420A" "GH 2420B" "GH 2420A&B").1
    ++ (mergeForPair g "GH 2430A" "GH 2430B" "GH 2430A&B").1

/-- The processed indices of one group. -/
def processedOf (g : List Event) : List ℕ :=
  (mergeForPair g "GH 1420" "GH 1430" "GH 1420&30").2
    ++ (mergeForPair g "GH 2410A" "GH 2410B" "GH 2410A&B").2
    ++ (mergeForPair g "GH 2420A" "GH 2420B" "GH 2420A&B").2
    ++ (mergeForPair g "GH 2430A" "GH 2430B" "GH 2430A&B").2

/-- Per-group body of the merger: singleton groups pass through; otherwise
the merged events are pushed first, then the unprocessed members. -/
def mergeGroup (g : List Event) : List Event :=
  if g.length == 1 then g
  else mergedOf g ++ keepUnprocessed (processedOf g) 0 g

/-- `mergeAdjacentRoomEvents` from the transform module: group by
date/name/start key, process groups in insertion order. -/
def mergeAdjacentRoomEvents (events : List Event) : List Event :=
  (groupKeys evKey events).flatMap fun k => mergeGroup (groupOf evKey events k)

theorem findRoomIdx_none_iff (g : List Event) (r : String) :
    findRoomIdx g r = none ↔ ∀ e ∈ g, e.room_name ≠ some r := by
  induction g with
  | nil => simp [findRoomIdx]
  | cons e rest ih =>
    rw [findRoomIdx]
    by_cases hc : roomIs r e
    · rw [if_pos hc]
      simp only [roomIs, beq_iff_eq] at hc
      simp [hc]
    · rw [if_neg hc]
      simp only [roomIs, beq_iff_eq] at hc
      simp [Option.map_eq_none', ih, hc]

theorem findRoomIdx_some (g : List Event) (r : String) :
    ∀ i, findRoomIdx g r = some i → ∃ e, g.get? i = some e ∧ e.room_name = some r := by
  induction g with
  | nil => intro i h; exact Option.noConfusion h
  | cons e rest ih =>
    intro i h
    rw [findRoomIdx] at h
    by_cases hc : roomIs r e
    · rw [if_pos hc] at h
      simp only [Option.some.injEq] at h
      subst h
      simp only [roomIs, beq_iff_eq] at hc
      exact ⟨e, rfl, hc⟩
    · rw [if_neg hc] at h
      rcases Option.map_eq_some'.mp h with ⟨j, hj, hji⟩
      rcases ih j hj with ⟨e', he', hr⟩
      subst hji
      exact ⟨e', by simpa using he', hr⟩

theorem keepUnprocessed_nil_proc (g : List Event) : ∀ i, keepUnprocessed [] i g = g := by
  induction g with
  | nil => intro i; rfl
  | cons e rest ih =>
    intro i
    rw [keepUnprocessed]
    simp [ih]

theorem keepUnprocessed_mem (proc : List ℕ) (g : List Event) :
    ∀ i e', e' ∈ keepUnprocessed proc i g →
      ∃ j, g.get? j = some e' ∧ (i + j) ∉ proc := by
  induction g with
  | nil => intro i e' h; exact absurd h (by simp [keepUnprocessed])
  | cons e rest ih =>
    intro i e' h
    rw [keepUnprocessed] at h
    by_cases hc : proc.contains i
    · rw [if_pos hc] at h
      rcases ih (i + 1) e' h with ⟨j, hj, hnot⟩
      exact ⟨j + 1, by simpa using hj, by
        have : i + (j + 1) = i + 1 + j := by omega
        rw [this]; exact hnot⟩
    · rw [if_neg hc] at h
      rcases List.mem_cons.mp h with rfl | h'
      · refine ⟨0, rfl, ?_⟩
        simpa using fun hmem => hc (List.elem_iff.mpr hmem)
      · rcases ih (i + 1) e' h' with ⟨j, hj, hnot⟩
        exact ⟨j + 1, by simpa using hj, by
          have : i + (j + 1) = i + 1 + j := by omega
          rw [this]; exact hnot⟩

theorem mergeForPair_cases (g : List Event) (ra rb lab : String) :
    ((findRoomIdx g ra = none ∨ findRoomIdx g rb = none)
        ∧ mergeForPair g ra rb lab = ([], []))
    ∨ ∃ ia ib ea, findRoomIdx g ra = some ia ∧ findRoomIdx g rb = some ib
        ∧ g.get? ia = some ea ∧ ea.room_name = some ra
        ∧ mergeForPair g ra rb lab = ([{ ea with room_name := some lab }], [ia, ib]) := by
  cases h1 : findRoomIdx g ra with
  | none => exact Or.inl ⟨Or.inl rfl, by simp [mergeForPair, h1]⟩
  | some ia =>
    cases h2 : findRoomIdx g rb with
    | none => exact Or.inl ⟨Or.inr rfl, by simp [mergeForPair, h1, h2]⟩
    | some ib =>
      rcases findRoomIdx_some g ra ia h1 with ⟨ea, hea, hr⟩
      refine Or.inr ⟨ia, ib, ea, rfl, rfl, hea, hr, ?_⟩
      have hea2 : g[ia]? = some ea := by rw [← List.get?_eq_getElem? ]; exact hea
      simp [mergeForPair, h1, h2, hea2]

theorem mergeForPair_none_left (g : List Event) (ra rb lab : String)
    (h : findRoomIdx g ra = none) : mergeForPair g ra rb lab = ([], []) := by
  rw [mergeForPair, h]

theorem mergeForPair_none_right (g : List Event) (ra rb lab : String)
    (h : findRoomIdx g rb = none) : mergeForPair g ra rb lab = ([], []) := by
  rw [mergeForPair, h]
  cases findRoomIdx g ra <;> rfl

theorem mergeForPair_fst_mem (g : List Event) (ra rb lab : String) (e' : Event)
    (h : e' ∈ (mergeForPair g ra rb lab).1) :
    e'.room_name = some lab ∧ ∃ ea ∈ g, e' = { ea with room_name := some lab } := by
  rcases mergeForPair_cases g ra rb lab with ⟨_, heq⟩ | ⟨ia, ib, ea, _, _, hea, _, heq⟩
  · rw [heq] at h
    exact absurd h (by simp)
  · rw [heq] at h
    simp only [List.mem_singleton] at h
    subst h
    exact ⟨rfl, ea, List.get?_mem hea, rfl⟩

theorem mergeForPair_snd_nil (g : List Event) (ra rb lab : String)
    (h : (mergeForPair g ra rb lab).1 = []) : (mergeForPair g ra rb lab).2 = [] := by
  rcases mergeForPair_cases g ra rb lab with ⟨_, heq⟩ | ⟨ia, ib, ea, _, _, _, _, heq⟩
  · rw [heq]
  · rw [heq] at h
    exact absurd h (by simp)

theorem mergedOf_rooms (g : List Event) (e' : Event) (h : e' ∈ mergedOf g) :
    e'.room_name = some "GH 1420&30" ∨ e'.room_name = some "GH 2410A&B"
    ∨ e'.room_name = some "GH 2420A&B" ∨ e'.room_name = some "GH 2430A&B" := by
  rcases List.mem_append.mp h with h3 | h4
  · rcases List.mem_append.mp h3 with h2 | hc
    · rcases List.mem_append.mp h2 with ha | hb
      · exact Or.inl (mergeForPair_fst_mem _ _ _ _ _ ha).1
      · exact Or.inr (Or.inl (mergeForPair_fst_mem _ _ _ _ _ hb).1)
    · exact Or.inr (Or.inr (Or.inl (mergeForPair_fst_mem _ _ _ _ _ hc).1))
  · exact Or.inr (Or.inr (Or.inr (mergeForPair_fst_mem _ _ _ _ _ h4).1))

theorem mergedOf_origin (g : List Event) (e' : Event) (h : e' ∈ mergedOf g) :
    ∃ ea ∈ g, evKey e' = evKey ea := by
  have aux : ∀ ra rb lab, e' ∈ (mergeForPair g ra rb lab).1 → ∃ ea ∈ g, evKey e' = evKey ea := by
    intro ra rb lab hm
    rcases (mergeForPair_fst_mem _ _ _ _ _ hm).2 with ⟨ea, hea, rfl⟩
    exact ⟨ea, hea, rfl⟩
  rcases List.mem_append.mp h with h3 | h4
  · rcases List.mem_append.mp h3 with h2 | hc
    · rcases List.mem_append.mp h2 with ha | hb
      · exact aux _ _ _ ha
      · exact aux _ _ _ hb
    · exact aux _ _ _ hc
  · exact aux _ _ _ h4

theorem mergeGroup_keys (g : List Event) (k : String) (hall : ∀ e ∈ g, evKey e = k) :
    ∀ e' ∈ mergeGroup g, evKey e' = k := by
  intro e' h
  rw [mergeGroup] at h
  by_cases h1 : g.length == 1
  · rw [if_pos h1] at h
    exact hall e' h
  · rw [if_neg h1] at h
    rcases List.mem_append.mp h with hm | hk
    · rcases mergedOf_origin g e' hm with ⟨ea, hea, hkey⟩
      rw [hkey]
      exact hall ea hea
    · rcases keepUnprocessed_mem _ _ 0 e' hk with ⟨j, hj, _⟩
      exact hall e' (List.get?_mem hj)

theorem mergeGroup_ne_nil (g : List Event) (h : g ≠ []) : mergeGroup g ≠ [] := by
  rw [mergeGroup]
  by_cases h1 : g.length == 1
  · rw [if_pos h1]
    exact h
  · rw [if_neg h1]
    intro hcontra
    rcases List.append_eq_nil.mp hcontra with ⟨hm, hk⟩
    rw [mergedOf] at hm
    rcases List.append_eq_nil.mp hm with ⟨hm3, hd⟩
    rcases List.append_eq_nil.mp hm3 with ⟨hm2, hc⟩
    rcases List.append_eq_nil.mp hm2 with ⟨ha, hb⟩
    have hproc : processedOf g = [] := by
      rw [processedOf, mergeForPair_snd_nil _ _ _ _ ha, mergeForPair_snd_nil _ _ _ _ hb,
        mergeForPair_snd_nil _ _ _ _ hc, mergeForPair_snd_nil _ _ _ _ hd]
      rfl
    rw [hproc, keepUnprocessed_nil_proc] at hk
    exact h hk

theorem mergeGroup_eq_self_of_no_pairs (g : List Event)
    (h1 : findRoomIdx g "GH 1420" = none ∨ findRoomIdx g "GH 1430" = none)
    (h2 : findRoomIdx g "GH 2410A" = none ∨ findRoomIdx g "GH 2410B" = none)
    (h3 : findRoomIdx g "GH 2420A" = none ∨ findRoomIdx g "GH 2420B" = none)
    (h4 : findRoomIdx g "GH 2430A" = none ∨ findRoomIdx g "GH 2430B" = none) :
    mergeGroup g = g := by
  have mk : ∀ ra rb lab, findRoomIdx g ra = none ∨ findRoomIdx g rb = none →
      mergeForPair g ra rb lab = ([], []) := by
    rintro ra rb lab (h | h)
    · exact mergeForPair_none_left _ _ _ _ h
    · exact mergeForPair_none_right _ _ _ _ h
  rw [mergeGroup]
  by_cases hl : g.length == 1
  · rw [if_pos hl]
  · rw [if_neg hl, mergedOf, processedOf, mk _ _ _ h1, mk _ _ _ h2, mk _ _ _ h3, mk _ _ _ h4]
    simp [keepUnprocessed_nil_proc]

/-- The eight room codes participating in a declared adjacent pair. -/
def pairRoomNames : List String :=
  ["GH 1420", "GH 1430", "GH 2410A", "GH 2410B", "GH 2420A", "GH 2420B", "GH 2430A", "GH 2430B"]

/-- No two distinct events of the list share a merge-group key together
with the same declared pair room: under this hypothesis each pair room
occurs at most once per group, which is the amended side condition of the
idempotence claim. -/
def adjRoomRel (a b : Event) : Prop :=
  evKey a = evKey b → a.room_name = b.room_name → ∀ r ∈ pairRoomNames, a.room_name ≠ some r

theorem labels_ne_pair_rooms :
    ∀ r ∈ pairRoomNames, ¬("GH 1420&30" = r) ∧ ¬("GH 2410A&B" = r)
      ∧ ¬("GH 2420A&B" = r) ∧ ¬("GH 2430A&B" = r) := by decide

theorem mergedOf_ne_pair_room (g : List Event) (r : String) (hr : r ∈ pairRoomNames) :
    ∀ e' ∈ mergedOf g, e'.room_name ≠ some r := by
  intro e' hm
  rcases labels_ne_pair_rooms r hr with ⟨l1, l2, l3, l4⟩
  rcases mergedOf_rooms g e' hm with h | h | h | h
  · rw [h]; simpa using l1
  · rw [h]; simpa using l2
  · rw [h]; simpa using l3
  · rw [h]; simpa using l4

theorem uniq_room_idx (g : List Event) (hg : g.Pairwise adjRoomRel) (k : String)
    (hkeys : ∀ e ∈ g, evKey e = k) (r : String) (hr : r ∈ pairRoomNames) :
    ∀ i j ea eb, g.get? i = some ea → g.get? j = some eb →
      ea.room_name = some r → eb.room_name = some r → i = j := by
  intro i j ea eb hi hj hra hrb
  by_contra hne
  rcases List.get?_eq_some.mp hi with ⟨hilt, higet⟩
  rcases List.get?_eq_some.mp hj with ⟨hjlt, hjget⟩
  have hmem_a : ea ∈ g := List.get?_mem hi
  have hmem_b : eb ∈ g := List.get?_mem hj
  rcases Nat.lt_or_ge i j with hij | hij
  · have hrel := List.pairwise_iff_getElem.mp hg i j hilt hjlt hij
    rw [show g[i] = ea from by rw [← higet]; rfl,
      show g[j] = eb from by rw [← hjget]; rfl] at hrel
    exact hrel (by rw [hkeys ea hmem_a, hkeys eb hmem_b]) (by rw [hra, hrb]) r hr hra
  · have hji : j < i := by omega
    have hrel := List.pairwise_iff_getElem.mp hg j i hjlt hilt hji
    rw [show g[j] = eb from by rw [← hjget]; rfl,
      show g[i] = ea from by rw [← higet]; rfl] at hrel
    exact hrel (by rw [hkeys ea hmem_a, hkeys eb hmem_b]) (by rw [hra, hrb]) r hr hrb

theorem output_pair_absent (g : List Event) (ra rb lab : String)
    (hra_mem : ra ∈ pairRoomNames) (hrb_mem : rb ∈ pairRoomNames)
    (hsub : ∀ x ∈ (mergeForPair g ra rb lab).2, x ∈ processedOf g)
    (huniq : ∀ i j ea eb, g.get? i = some ea → g.get? j = some eb →
        ea.room_name = some ra → eb.room_name = some ra → i = j) :
    findRoomIdx (mergedOf g ++ keepUnprocessed (processedOf g) 0 g) ra = none
    ∨ findRoomIdx (mergedOf g ++ keepUnprocessed (processedOf g) 0 g) rb = none := by
  rcases hfa : findRoomIdx g ra with _ | ia
  · left
    refine (findRoomIdx_none_iff _ _).mpr ?_
    intro e' he'
    rcases List.mem_append.mp he' with hm | hk
    · exact mergedOf_ne_pair_room g ra hra_mem e' hm
    · rcases keepUnprocessed_mem _ _ 0 e' hk with ⟨j, hj, _⟩
      exact (findRoomIdx_none_iff g ra).mp hfa e' (List.get?_mem hj)
  · rcases hfb : findRoomIdx g rb with _ | ib
    · right
      refine (findRoomIdx_none_iff _ _).mpr ?_
      intro e' he'
      rcases List.mem_append.mp he' with hm | hk
      · exact mergedOf_ne_pair_room g rb hrb_mem e' hm
      · rcases keepUnprocessed_mem _ _ 0 e' hk with ⟨j, hj, _⟩
        exact (findRoomIdx_none_iff g rb).mp hfb e' (List.get?_mem hj)
    · left
      refine (findRoomIdx_none_iff _ _).mpr ?_
      intro e' he'
      rcases List.mem_append.mp he' with hm | hk
      · exact mergedOf_ne_pair_room g ra hra_mem e' hm
      · rcases keepUnprocessed_mem _ _ 0 e' hk with ⟨j, hj, hjnot⟩
        intro hroom
        rcases mergeForPair_cases g ra rb lab with ⟨hnone, _⟩ | ⟨ia', ib', ea, hia', hib', hea, hear, heq⟩
        · rcases hnone with hx | hx
          · rw [hfa] at hx; exact Option.noConfusion hx
          · rw [hfb] at hx; exact Option.noConfusion hx
        · have hia : ia' = ia := by
            rw [hfa] at hia'
            exact (Option.some.inj hia').symm
          have hproc : ia ∈ processedOf g := by
            refine hsub ia ?_
            rw [heq, hia]
            simp
          have hj0 : j = ia := by
            refine huniq j ia e' ea hj (by rw [← hia]; exact hea) hroom hear
          rw [hj0] at hjnot
          exact hjnot (by simpa using hproc)

theorem mergeGroup_idem_of_group (g : List Event) (k : String)
    (hg : g.Pairwise adjRoomRel) (hkeys : ∀ e ∈ g, evKey e = k) :
    mergeGroup (mergeGroup g) = mergeGroup g := by
  by_cases hl : g.length == 1
  · have hB : mergeGroup g = g := by rw [mergeGroup, if_pos hl]
    rw [hB]
    exact hB
  · have hB : mergeGroup g = mergedOf g ++ keepUnprocessed (processedOf g) 0 g := by
      rw [mergeGroup, if_neg hl]
    rw [hB]
    apply mergeGroup_eq_self_of_no_pairs
    · exact output_pair_absent g "GH 1420" "GH 1430" "GH 1420&30" (by decide) (by decide)
        (by intro x hx; rw [processedOf]; simp only [List.mem_append]; tauto)
        (uniq_room_idx g hg k hkeys "GH 1420" (by decide))
    · exact output_pair_absent g "GH 2410A" "GH 2410B" "GH 2410A&B" (by decide) (by decide)
        (by intro x hx; rw [processedOf]; simp only [List.mem_append]; tauto)
        (uniq_room_idx g hg k hkeys "GH 2410A" (by decide))
    · exact output_pair_absent g "GH 2420A" "GH 2420B" "GH 2420A&B" (by decide) (by decide)
        (by intro x hx; rw [processedOf]; simp only [List.mem_append]; tauto)
        (uniq_room_idx g hg k hkeys "GH 2420A" (by decide))
    · exact output_pair_absent g "GH 2430A" "GH 2430B" "GH 2430A&B" (by decide) (by decide)
        (by intro x hx; rw [processedOf]; simp only [List.mem_append]; tauto)
        (uniq_room_idx g hg k hkeys "GH 2430A" (by decide))

/-- A stub raw record for hand-built Events. -/
def rawStub : RawEventItem :=
  { itemId := 0, itemId2 := 0, subject_itemId := 0, itemName := none,
    subject_itemName := none, subject_item_date := none, start := 0, end_ := 0,
    itemDetails := none }

/-- A hand-built Event in a given room, sharing date, name and start time
with its siblings. -/
def mkEv (idv : ℕ) (room : String) : Event :=
  { item_id := 0, item_id2 := 0, id := idv, date := "2025-07-15",
    start_time := "09:00:00", end_time := "10:00:00", event_name := some "Class",
    event_type := some "Lecture", organization := none, instructor_names := none,
    lecture_title := none, room_name := some room, resources := [], raw := rawStub }

/-- Two bookings in each room of the 1420/1430 pair, all in one group. -/
def exC7 : List Event :=
  [mkEv 1 "GH 1420", mkEv 2 "GH 1430", mkEv 3 "GH 1420", mkEv 4 "GH 1430"]

/-- A group with one booking in each pair room and one unrelated room. -/
def exC7w : List Event :=
  [mkEv 1 "GH 1420", mkEv 2 "GH 1430", mkEv 5 "GH 1110"]

/-- Claim C7 counterexample: when a group contains the rooms of a declared
pair more than once, the first pass merges only the first occurrence of each
room (4 events become 3), and a second pass merges the surviving pair (3
become 2) — so running the merger again on its own output is not a no-op. -/
theorem c7_counterexample :
    (mergeAdjacentRoomEvents exC7).length = 3
    ∧ (mergeAdjacentRoomEvents (mergeAdjacentRoomEvents exC7)).length = 2 := by
  constructor
  · decide
  · decide

instance : DecidableRel adjRoomRel := fun a b => by
  unfold adjRoomRel
  infer_instance

/-- Claim C7, amended: the pair merge behaves as described, and the merger
is idempotent provided no merge-group contains a declared pair room twice
(formally: no two distinct events share both group key and pair room);
without that proviso a second application can merge again (see the
counterexample). -/
theorem c7_amended (l : List Event) (h : l.Pairwise adjRoomRel) :
    mergeAdjacentRoomEvents (mergeAdjacentRoomEvents l) = mergeAdjacentRoomEvents l := by
  have hgkeys : ∀ k : String, ∀ e ∈ groupOf evKey l k, evKey e = k := by
    intro k e he
    have h2 := (List.mem_filter.mp he).2
    simpa [beq_iff_eq] using h2
  have hgp : ∀ k : String, (groupOf evKey l k).Pairwise adjRoomRel := fun k =>
    List.Pairwise.sublist (List.filter_sublist l) h
  set ks := groupKeys evKey l with hks
  set B : String → List Event := fun k => mergeGroup (groupOf evKey l k) with hBdef
  have hf : mergeAdjacentRoomEvents l = ks.flatMap B := rfl
  have hknd : ks.Nodup := groupKeys_nodup _ _
  have hBkeys : ∀ k ∈ ks, ∀ e ∈ B k, evKey e = k := fun k _ e he =>
    mergeGroup_keys _ k (hgkeys k) e he
  have hBne : ∀ k ∈ ks, B k ≠ [] := by
    intro k hk
    apply mergeGroup_ne_nil
    rcases (groupKeys_mem evKey l k).mp hk with ⟨e, he, hkey⟩
    exact List.ne_nil_of_mem (List.mem_filter.mpr ⟨he, by simp [hkey]⟩)
  rw [hf]
  have hsecond : mergeAdjacentRoomEvents (ks.flatMap B)
      = (groupKeys evKey (ks.flatMap B)).flatMap
          (fun k => mergeGroup (groupOf evKey (ks.flatMap B) k)) := rfl
  rw [hsecond, groupKeys_blocks evKey ks B hknd hBkeys hBne]
  have hcongr : ∀ k ∈ ks, mergeGroup (groupOf evKey (ks.flatMap B) k) = B k := by
    intro k hk
    have hgrp : groupOf evKey (ks.flatMap B) k = B k :=
      flatMap_filter_eq_block evKey ks B k hknd hBkeys hk
    rw [hgrp]
    show mergeGroup (mergeGroup (groupOf evKey l k)) = mergeGroup (groupOf evKey l k)
    exact mergeGroup_idem_of_group (groupOf evKey l k) k (hgp k) (hgkeys k)
  rw [flatMap_congr_keys ks _ B hcongr]

/-- Witness for the amended claim C7: a group holding the 1420/1430 pair
once each plus a bystander merges to the "GH 1420&30" Event plus the
bystander, and a second application changes nothing. -/
theorem c7_witness :
    exC7w.Pairwise adjRoomRel
    ∧ (mergeAdjacentRoomEvents exC7w).map (fun e => e.room_name)
        = [some "GH 1420&30", some "GH 1110"]
    ∧ mergeAdjacentRoomEvents (mergeAdjacentRoomEvents exC7w) = mergeAdjacentRoomEvents exC7w :=
  ⟨by decide, by decide, c7_amended exC7w (by decide)⟩

/-! ### Session Consolidator (combineKECEvents) -/

theorem char_eq_of_toNat_eq {a b : Char} (h : a.toNat = b.toNat) : a = b :=
  Char.eq_of_val_eq (UInt32.eq_of_val_eq (Fin.ext h))

theorem listLtB_irrefl (l : List Char) : listLtB l l = false := by
  induction l with
  | nil => rfl
  | cons a as ih => simp [listLtB, ih]

theorem listLtB_eq_of_not_lt : ∀ a b : List Char,
    listLtB a b = false → listLtB b a = false → a = b := by
  intro a
  induction a with
  | nil =>
    intro b h1 _
    cases b with
    | nil => rfl
    | cons y bs => exact absurd h1 (by simp [listLtB])
  | cons x as ih =>
    intro b h1 h2
    cases b with
    | nil => exact absurd h2 (by simp [listLtB])
    | cons y bs =>
      by_cases hxy : x.toNat < y.toNat
      · exact absurd h1 (by simp [listLtB, hxy])
      · by_cases hyx : y.toNat < x.toNat
        · exact absurd h2 (by simp [listLtB, hyx])
        · have hx : x = y := char_eq_of_toNat_eq (by omega)
          subst hx
          rw [listLtB] at h1 h2
          simp only [if_neg hxy, if_neg hyx] at h1 h2
          rw [ih bs h1 h2]

theorem listLtB_trans : ∀ a b c : List Char,
    listLtB a b = true → listLtB b c = true → listLtB a c = true := by
  intro a
  induction a with
  | nil =>
    intro b c h1 h2
    cases b with
    | nil => exact absurd h1 (by simp [listLtB])
    | cons y bs =>
      cases c with
      | nil => exact absurd h2 (by simp [listLtB])
      | cons z cs => simp [listLtB]
  | cons x as ih =>
    intro b c h1 h2
    cases b with
    | nil => exact absurd h1 (by simp [listLtB])
    | cons y bs =>
      cases c with
      | nil => exact absurd h2 (by simp [listLtB])
      | cons z cs =>
        rw [listLtB] at h1 h2
        rw [listLtB]
        by_cases hxy : x.toNat < y.toNat
        · by_cases hyz : y.toNat < z.toNat
          · rw [if_pos (by omega : x.toNat < z.toNat)]
          · rw [if_neg hyz] at h2
            by_cases hzy : z.toNat < y.toNat
            · rw [if_pos hzy] at h2
              exact absurd h2 (by simp)
            · rw [if_pos (by omega : x.toNat < z.toNat)]
        · rw [if_neg hxy] at h1
          by_cases hyx : y.toNat < x.toNat
          · rw [if_pos hyx] at h1
            exact absurd h1 (by simp)
          · rw [if_neg hyx] at h1
            by_cases hyz : y.toNat < z.toNat
            · rw [if_pos hyz] at h2
              rw [if_pos (by omega : x.toNat < z.toNat)]
            · rw [if_neg hyz] at h2
              by_cases hzy : z.toNat < y.toNat
              · rw [if_pos hzy] at h2
                exact absurd h2 (by simp)
              · rw [if_neg hzy] at h2
                rw [if_neg (by omega : ¬ x.toNat < z.toNat),
                  if_neg (by omega : ¬ z.toNat < x.toNat)]
                exact ih bs cs h1 h2

theorem strLtB_irrefl (s : String) : strLtB s s = false := listLtB_irrefl s.data

theorem strLtB_eq_of_not_lt {a b : String} (h1 : strLtB a b = false)
    (h2 : strLtB b a = false) : a = b := by
  have hd := listLtB_eq_of_not_lt a.data b.data h1 h2
  cases a
  cases b
  exact congrArg String.mk hd

theorem strLtB_trans {a b c : String} (h1 : strLtB a b = true) (h2 : strLtB b c = true) :
    strLtB a c = true :=
  listLtB_trans a.data b.data c.data h1 h2

theorem strLtB_false_of_true {a b : String} (h : strLtB a b = true) : strLtB b a = false := by
  cases hc : strLtB b a
  · rfl
  · have := strLtB_trans h hc
    rw [strLtB_irrefl] at this
    exact Bool.noConfusion this

theorem foldl_min_spec (f : Event → String) (g : List Event) :
    ∀ a0,
      ((g.foldl (fun acc e => if strLtB (f e) acc then f e else acc) a0 = a0
          ∨ ∃ e ∈ g, g.foldl (fun acc e => if strLtB (f e) acc then f e else acc) a0 = f e)
        ∧ (∀ e ∈ g,
            strLtB (f e) (g.foldl (fun acc e => if strLtB (f e) acc then f e else acc) a0) = false)
        ∧ strLtB a0 (g.foldl (fun acc e => if strLtB (f e) acc then f e else acc) a0) = false) := by
  induction g with
  | nil => intro a0; exact ⟨Or.inl rfl, by simp, strLtB_irrefl a0⟩
  | cons e rest ih =>
    intro a0
    simp only [List.foldl_cons]
    by_cases hlt : strLtB (f e) a0 = true
    · rw [if_pos hlt]
      rcases ih (f e) with ⟨hmem, hall, hle⟩
      refine ⟨?_, ?_, ?_⟩
      · rcases hmem with hm | ⟨e', he', hm⟩
        · exact Or.inr ⟨e, by simp, hm⟩
        · exact Or.inr ⟨e', by simp [he'], hm⟩
      · intro e' he'
        rcases List.mem_cons.mp he' with rfl | he''
        · exact hle
        · exact hall e' he''
      · by_contra hcon
        have har : strLtB a0 (rest.foldl (fun acc e => if strLtB (f e) acc then f e else acc) (f e)) = true := by
          cases h : strLtB a0 (rest.foldl (fun acc e => if strLtB (f e) acc then f e else acc) (f e))
          · exact absurd h hcon
          · rfl
        cases hrf : strLtB (rest.foldl (fun acc e => if strLtB (f e) acc then f e else acc) (f e)) (f e)
        · have heq := strLtB_eq_of_not_lt hle hrf
          rw [heq] at hlt
          have hbad := strLtB_trans har hlt
          rw [strLtB_irrefl] at hbad
          exact Bool.noConfusion hbad
        · have h1 := strLtB_trans har hrf
          have h2 := strLtB_trans h1 hlt
          rw [strLtB_irrefl] at h2
          exact Bool.noConfusion h2
    · rw [if_neg hlt]
      have hlt' : strLtB (f e) a0 = false := by
        cases h : strLtB (f e) a0
        · rfl
        · exact absurd h hlt
      rcases ih a0 with ⟨hmem, hall, hle⟩
      refine ⟨?_, ?_, hle⟩
      · rcases hmem with hm | ⟨e', he', hm⟩
        · exact Or.inl hm
        · exact Or.inr ⟨e', by simp [he'], hm⟩
      · intro e' he'
        rcases List.mem_cons.mp he' with rfl | he''
        · by_contra hcon
          have hfr : strLtB (f e') (rest.foldl (fun acc e => if strLtB (f e) acc then f e else acc) a0) = true := by
            cases h : strLtB (f e') (rest.foldl (fun acc e => if strLtB (f e) acc then f e else acc) a0)
            · exact absurd h hcon
            · rfl
          cases hra : strLtB (rest.foldl (fun acc e => if strLtB (f e) acc then f e else acc) a0) a0
          · have heq := strLtB_eq_of_not_lt hle hra
            rw [heq] at hlt'
            rw [hfr] at hlt'
            exact Bool.noConfusion hlt'
          · have hbad := strLtB_trans hfr hra
            rw [hbad] at hlt'
            exact Bool.noConfusion hlt'
        · exact hall e' he''

theorem foldl_max_spec (f : Event → String) (g : List Event) :
    ∀ a0,
      ((g.foldl (fun acc e => if strLtB acc (f e) then f e else acc) a0 = a0
          ∨ ∃ e ∈ g, g.foldl (fun acc e => if strLtB acc (f e) then f e else acc) a0 = f e)
        ∧ (∀ e ∈ g,
            strLtB (g.foldl (fun acc e => if strLtB acc (f e) then f e else acc) a0) (f e) = false)
        ∧ strLtB (g.foldl (fun acc e => if strLtB acc (f e) then f e else acc) a0) a0 = false) := by
  induction g with
  | nil => intro a0; exact ⟨Or.inl rfl, by simp, strLtB_irrefl a0⟩
  | cons e rest ih =>
    intro a0
    simp only [List.foldl_cons]
    by_cases hlt : strLtB a0 (f e) = true
    · rw [if_pos hlt]
      rcases ih (f e) with ⟨hmem, hall, hle⟩
      refine ⟨?_, ?_, ?_⟩
      · rcases hmem with hm | ⟨e', he', hm⟩
        · exact Or.inr ⟨e, by simp, hm⟩
        · exact Or.inr ⟨e', by simp [he'], hm⟩
      · intro e' he'
        rcases List.mem_cons.mp he' with rfl | he''
        · exact hle
        · exact hall e' he''
      · by_contra hcon
        have har : strLtB (rest.foldl (fun acc e => if strLtB acc (f e) then f e else acc) (f e)) a0 = true := by
          cases h : strLtB (rest.foldl (fun acc e => if strLtB acc (f e) then f e else acc) (f e)) a0
          · exact absurd h hcon
          · rfl
        cases hrf : strLtB (f e) (rest.foldl (fun acc e => if strLtB acc (f e) then f e else acc) (f e))
        · have heq := strLtB_eq_of_not_lt hle hrf
          rw [← heq] at hlt
          have hbad := strLtB_trans hlt har
          rw [strLtB_irrefl] at hbad
          exact Bool.noConfusion hbad
        · have h1 := strLtB_trans hrf har
          have h2 := strLtB_trans hlt h1
          rw [strLtB_irrefl] at h2
          exact Bool.noConfusion h2
    · rw [if_neg hlt]
      have hlt' : strLtB a0 (f e) = false := by
        cases h : strLtB a0 (f e)
        · rfl
        · exact absurd h hlt
      rcases ih a0 with ⟨hmem, hall, hle⟩
      refine ⟨?_, ?_, hle⟩
      · rcases hmem with hm | ⟨e', he', hm⟩
        · exact Or.inl hm
        · exact Or.inr ⟨e', by simp [he'], hm⟩
      · intro e' he'
        rcases List.mem_cons.mp he' with rfl | he''
        · by_contra hcon
          have hfr : strLtB (rest.foldl (fun acc e => if strLtB acc (f e) then f e else acc) a0) (f e') = true := by
            cases h : strLtB (rest.foldl (fun acc e => if strLtB acc (f e) then f e else acc) a0) (f e')
            · exact absurd h hcon
            · rfl
          cases hra : strLtB a0 (rest.foldl (fun acc e => if strLtB acc (f e) then f e else acc) a0)
          · have heq := strLtB_eq_of_not_lt hra hle
            rw [← heq] at hfr
            rw [hfr] at hlt'
            exact Bool.noConfusion hlt'
          · have hbad := strLtB_trans hra hfr
            rw [hbad] at hlt'
            exact Bool.noConfusion hlt'
        · exact hall e' he''

/-- The grouping key of the session consolidator (a null room renders as
"null" in the template literal). -/
def kecKey (e : Event) : String := e.date ++ "_" ++ jsShowNull e.room_name

/-- `event.event_type === 'KEC'`. -/
def isKec (e : Event) : Bool := e.event_type == some "KEC"

/-- Per-group body of `combineKECEvents`: singleton groups pass through; a
larger group collapses to one copy of its first member with the least start
time, the greatest end time (lexicographic string comparison, as in the
source), cleared instructors and cleared resources. -/
def combineGroup (g : List Event) : List Event :=
  match g with
  | [] => []
  | e0 :: _ =>
    if g.length == 1 then g
    else
      [{ e0 with
          start_time :=
            g.foldl (fun acc e => if strLtB e.start_time acc then e.start_time else acc)
              e0.start_time,
          end_time :=
            g.foldl (fun acc e => if strLtB acc e.end_time then e.end_time else acc)
              e0.end_time,
          instructor_names := none,
          resources := [] }]

/-- `combineKECEvents` from the transform module: split off the KEC events,
group them by date and room, combine each group, and append the non-KEC
events unchanged. -/
def combineKECEvents (events : List Event) : List Event :=
  let kecEvents := events.filter isKec
  let nonKecEvents := events.filter fun e => !(isKec e)
  if kecEvents.length == 0 then events
  else
    ((groupKeys kecKey kecEvents).flatMap fun k => combineGroup (groupOf kecKey kecEvents k))
      ++ nonKecEvents

theorem combineGroup_keys (g : List Event) (k : String) (hall : ∀ e ∈ g, kecKey e = k) :
    ∀ e' ∈ combineGroup g, kecKey e' = k := by
  intro e' h
  cases g with
  | nil => exact absurd h (by simp [combineGroup])
  | cons e0 rest =>
    rw [combineGroup] at h
    by_cases hl : (e0 :: rest).length == 1
    · rw [if_pos hl] at h
      exact hall e' h
    · rw [if_neg hl] at h
      simp only [List.mem_singleton] at h
      subst h
      exact hall e0 (by simp)

theorem combineGroup_kec (g : List Event) (hall : ∀ e ∈ g, isKec e = true) :
    ∀ e' ∈ combineGroup g, isKec e' = true := by
  intro e' h
  cases g with
  | nil => exact absurd h (by simp [combineGroup])
  | cons e0 rest =>
    rw [combineGroup] at h
    by_cases hl : (e0 :: rest).length == 1
    · rw [if_pos hl] at h
      exact hall e' h
    · rw [if_neg hl] at h
      simp only [List.mem_singleton] at h
      subst h
      exact hall e0 (by simp)

theorem combineGroup_ne_nil (g : List Event) (h : g ≠ []) : combineGroup g ≠ [] := by
  cases g with
  | nil => exact absurd rfl h
  | cons e0 rest =>
    rw [combineGroup]
    by_cases hl : (e0 :: rest).length == 1
    · rw [if_pos hl]
      simp
    · rw [if_neg hl]
      simp

/-- Claim C8: a group of two or more KEC Events sharing the date/room key is
replaced by exactly one Event (the result filtered to KEC events of that key
is a singleton) whose start time is the least start of the group, whose end
time is the greatest end of the group (lexicographic order on the time
strings, which agrees with clock order on HH:MM:SS), whose instructors are
cleared and resources emptied, and whose remaining fields come from the
first-seen group member. -/
theorem c8_kec_consolidation (events : List Event) (k : String)
    (h2 : 2 ≤ ((events.filter isKec).filter (fun e => kecKey e == k)).length) :
    ∃ (e0 : Event) (m M : String),
      ((events.filter isKec).filter (fun e => kecKey e == k)).head? = some e0
      ∧ (∃ e ∈ (events.filter isKec).filter (fun e => kecKey e == k), m = e.start_time)
      ∧ (∀ e ∈ (events.filter isKec).filter (fun e => kecKey e == k),
          strLtB e.start_time m = false)
      ∧ (∃ e ∈ (events.filter isKec).filter (fun e => kecKey e == k), M = e.end_time)
      ∧ (∀ e ∈ (events.filter isKec).filter (fun e => kecKey e == k),
          strLtB M e.end_time = false)
      ∧ (combineKECEvents events).filter (fun e => isKec e && (kecKey e == k))
          = [{ e0 with start_time := m, end_time := M,
                       instructor_names := none, resources := [] }] := by
  rcases hg : (events.filter isKec).filter (fun e => kecKey e == k) with _ | ⟨e0, rest⟩
  · rw [hg] at h2
    exact absurd h2 (by simp)
  rw [hg] at h2
  refine ⟨e0,
    (e0 :: rest).foldl (fun acc e => if strLtB e.start_time acc then e.start_time else acc)
      e0.start_time,
    (e0 :: rest).foldl (fun acc e => if strLtB acc e.end_time then e.end_time else acc)
      e0.end_time,
    rfl, ?_, ?_, ?_, ?_, ?_⟩
  · rcases (foldl_min_spec (fun e => e.start_time) (e0 :: rest) e0.start_time).1 with hm | ⟨e, he, hm⟩
    · exact ⟨e0, by simp, hm⟩
    · exact ⟨e, he, hm⟩
  · intro e he
    exact (foldl_min_spec (fun e => e.start_time) (e0 :: rest) e0.start_time).2.1 e he
  · rcases (foldl_max_spec (fun e => e.end_time) (e0 :: rest) e0.end_time).1 with hm | ⟨e, he, hm⟩
    · exact ⟨e0, by simp, hm⟩
    · exact ⟨e, he, hm⟩
  · intro e he
    exact (foldl_max_spec (fun e => e.end_time) (e0 :: rest) e0.end_time).2.1 e he
  · have he0g : e0 ∈ (events.filter isKec).filter (fun e => kecKey e == k) := by
      rw [hg]; simp
    have hkec_mem : e0 ∈ events.filter isKec := (List.mem_filter.mp he0g).1
    have he0key : kecKey e0 = k := by
      have := (List.mem_filter.mp he0g).2
      simpa [beq_iff_eq] using this
    have hkne : ((events.filter isKec).length == 0) = false := by
      cases hl : events.filter isKec with
      | nil => rw [hl] at hkec_mem; exact absurd hkec_mem (by simp)
      | cons a l => rfl
    have hck : combineKECEvents events
        = ((groupKeys kecKey (events.filter isKec)).flatMap
              fun k' => combineGroup (groupOf kecKey (events.filter isKec) k'))
            ++ events.filter (fun e => !(isKec e)) := by
      simp only [combineKECEvents, hkne, Bool.false_eq_true, if_false]
    rw [hck, List.filter_append]
    have hnon : (events.filter (fun e => !(isKec e))).filter
        (fun e => isKec e && (kecKey e == k)) = [] := by
      rw [List.filter_eq_nil_iff]
      intro e he
      have hni := (List.mem_filter.mp he).2
      simp only [Bool.not_eq_true'] at hni
      simp [hni]
    rw [hnon, List.append_nil]
    have hgroupkeys : ∀ k' : String, ∀ e ∈ groupOf kecKey (events.filter isKec) k', kecKey e = k' := by
      intro k' e he
      have := (List.mem_filter.mp he).2
      simpa [beq_iff_eq] using this
    have hcongr : ((groupKeys kecKey (events.filter isKec)).flatMap
          fun k' => combineGroup (groupOf kecKey (events.filter isKec) k')).filter
            (fun e => isKec e && (kecKey e == k))
        = ((groupKeys kecKey (events.filter isKec)).flatMap
          fun k' => combineGroup (groupOf kecKey (events.filter isKec) k')).filter
            (fun e => kecKey e == k) := by
      apply List.filter_congr
      intro x hx
      rcases List.mem_flatMap.mp hx with ⟨k', hk', hxk⟩
      have hxkec : isKec x = true := by
        refine combineGroup_kec _ ?_ x hxk
        intro e he
        exact (List.mem_filter.mp (List.mem_filter.mp he).1).2
      rw [hxkec, Bool.true_and]
    rw [hcongr]
    have hblock := flatMap_filter_eq_block kecKey (groupKeys kecKey (events.filter isKec))
        (fun k' => combineGroup (groupOf kecKey (events.filter isKec) k')) k
        (groupKeys_nodup _ _)
        (fun k' _ e he => combineGroup_keys _ k' (hgroupkeys k') e he)
        ((groupKeys_mem kecKey (events.filter isKec) k).mpr ⟨e0, hkec_mem, he0key⟩)
    rw [hblock]
    have hgrp : groupOf kecKey (events.filter isKec) k = e0 :: rest := by
      rw [groupOf]
      exact hg
    show combineGroup (groupOf kecKey (events.filter isKec) k) = _
    rw [hgrp, combineGroup]
    have hlen : ((e0 :: rest).length == 1) = false := by
      cases hr : rest with
      | nil => rw [hr] at h2; exact absurd h2 (by simp)
      | cons b l => rfl
    rw [if_neg (by rw [hlen]; exact Bool.false_ne_true)]

/-- A KEC Event with the given times in GH 1110 on 2025-07-15. -/
def mkKec (idv : ℕ) (st en : String) : Event :=
  { item_id := 0, item_id2 := 0, id := idv, date := "2025-07-15",
    start_time := st, end_time := en, event_name := some "Exec Program",
    event_type := some "KEC", organization := none,
    instructor_names := some ["A. Smith"], lecture_title := none,
    room_name := some "GH 1110", resources := [], raw := rawStub }

/-- Three overlapping KEC sessions in one room on one date. -/
def exC8 : List Event :=
  [mkKec 1 "09:30:00" "10:30:00", mkKec 2 "09:00:00" "10:00:00",
   mkKec 3 "10:00:00" "11:00:00"]

/-- Witness for C8: the three-session KEC group collapses; concretely the
consolidator output is the single span 09:00:00–11:00:00 with instructors
and resources cleared. -/
theorem c8_witness :
    2 ≤ ((exC8.filter isKec).filter (fun e => kecKey e == "2025-07-15_GH 1110")).length
    ∧ (∃ (e0 : Event) (m M : String),
        ((exC8.filter isKec).filter (fun e => kecKey e == "2025-07-15_GH 1110")).head? = some e0
        ∧ (∃ e ∈ (exC8.filter isKec).filter (fun e => kecKey e == "2025-07-15_GH 1110"),
            m = e.start_time)
        ∧ (∀ e ∈ (exC8.filter isKec).filter (fun e => kecKey e == "2025-07-15_GH 1110"),
            strLtB e.start_time m = false)
        ∧ (∃ e ∈ (exC8.filter isKec).filter (fun e => kecKey e == "2025-07-15_GH 1110"),
            M = e.end_time)
        ∧ (∀ e ∈ (exC8.filter isKec).filter (fun e => kecKey e == "2025-07-15_GH 1110"),
            strLtB M e.end_time = false)
        ∧ (combineKECEvents exC8).filter (fun e => isKec e && (kecKey e == "2025-07-15_GH 1110"))
            = [{ e0 with start_time := m, end_time := M,
                         instructor_names := none, resources := [] }])
    ∧ (combineKECEvents exC8).map
        (fun e => (e.start_time, e.end_time, e.instructor_names, e.resources))
        = [("09:00:00", "11:00:00", none, [])] :=
  ⟨by decide, c8_kec_consolidation exC8 "2025-07-15_GH 1110" (by decide), by decide⟩

/-! ### The full pipeline: `transformRawEventsToEvents` -/

/-- `event.raw.itemDetails?.defn?.panel[1]?.item?.[0]?.itemName` from
`removeKECNoAcademicEvents`. -/
def academicMarker (event : RawEventItem) : Option String :=
  ((panelsOf event).get? 1).bind fun p => (p.item.get? 0).bind PanelItem.itemName

/-- The academic-session test applied to KEC events: the second panel's
first item is the Academic Session or Class Session marker. -/
def isAcademicKEC (e : Event) : Bool :=
  academicMarker e.raw == some "<p>Academic Session</p>"
    || academicMarker e.raw == some "<p>Class Session</p>"

/-- `removeKECNoAcademicEvents` from `part_003`: non-KEC events always pass;
KEC events pass only with an academic/class session marker. -/
def removeKECNoAcademicEvents (events : List Event) : List Event :=
  events.filter fun e =>
    if e.event_type == some "KEC" then isAcademicKEC e else true

/-- One element of the `.map` in `transformRawEventsToEvents`: assemble a
processed Event from a raw item.  The wall-clock fallback date
(`new Date().toISOString().split("T")[0]`, taken when `subject_item_date`
is falsy) is passed in as `today`; the `updated_at` timestamp is omitted as
no later stage reads it. -/
def assembleEvent (today : String) (event : RawEventItem) : Event :=
  { item_id := event.itemId,
    item_id2 := event.itemId2,
    id := generateDeterministicId event.itemId event.itemId2 event.subject_itemId,
    date := match event.subject_item_date with
            | some d => if d = "" then today else (jsSplitOnChar 'T' d).headD ""
            | none => today,
    start_time := (toTimeStrings event.start event.end_).1,
    end_time := (toTimeStrings event.start event.end_).2,
    event_name := event.itemName,
    event_type := getEventType event,
    organization := getOrganization event,
    instructor_names := getInstructorNames event,
    lecture_title := getLectureTitle event,
    room_name := parseRoomName event.subject_itemName,
    resources := parseEventResources event,
    raw := event }

/-- `transformRawEventsToEvents` from `part_003`: record filter, assembly,
adjacent-room merge, then the academic-KEC filter — `combineKECEvents` is
exported but never called here.  A missing/non-array payload is `none` and
yields `[]`. -/
def transformRawEventsToEvents (today : String) (rawData : Option (List RawEventItem)) :
    List Event :=
  match rawData with
  | none => []
  | some raws =>
    removeKECNoAcademicEvents
      (mergeAdjacentRoomEvents ((recordFilter raws).map (assembleEvent today)))

/-- A raw KEC booking in KGH1110 on 2025-07-15 with the given decimal-hour
times: the first panel carries the Executive-Education tag and the second
the Academic Session marker. -/
def rawKec (iid : ℕ) (st en : ℚ) : RawEventItem :=
  { itemId := iid, itemId2 := 7, subject_itemId := 3,
    itemName := some "Exec Program",
    subject_itemName := some "KGH1110 (70)",
    subject_item_date := some "2025-07-15T00:00:00",
    start := st, end_ := en,
    itemDetails := some
      { defn := some
          { panel :=
              [{ typeId := some 11,
                 item := [PanelItem.mk none [], PanelItem.mk none [],
                          PanelItem.mk none [], PanelItem.mk none [],
                          PanelItem.mk none [], PanelItem.mk none [],
                          PanelItem.mk none
                            [PanelItem.mk
                              (some "Kellogg Executive Education Programs") []]] },
               { typeId := none,
                 item := [PanelItem.mk (some "<p>Academic Session</p>") []] }] },
        occur := none } }

/-- Two academic KEC sessions on the same date in the same room. -/
def exC1 : List RawEventItem := [rawKec 101 9 10, rawKec 102 10 11]

/-- Claim C1 counterexample: the deployed pipeline never runs the session
consolidator (`transformRawEventsToEvents` calls the adjacent-room merger
and then `removeKECNoAcademicEvents`; `combineKECEvents` is only exported),
so two KEC sessions sharing (date, room) both appear in the final output —
the count for their key is 2, not 1. -/
theorem c1_counterexample :
    (transformRawEventsToEvents "2026-01-01" (some exC1)).countP
        (fun e => isKec e && (kecKey e == "2025-07-15_GH 1110")) = 2 := by
  decide

/-- Claim C1 amended: in the finalized output of `transformRawEventsToEvents`
no consolidation takes place — for every (date, room) key the number of KEC
events is exactly the number of academic KEC events left by the
adjacent-room merge stage, one per surviving session; groups of two or more
same-key KEC sessions therefore remain as individual events (the session
consolidator `combineKECEvents` is never invoked by the pipeline). -/
theorem c1_amended (today : String) (raws : List RawEventItem) (k : String) :
    (transformRawEventsToEvents today (some raws)).countP
        (fun e => isKec e && (kecKey e == k))
      = (mergeAdjacentRoomEvents ((recordFilter raws).map (assembleEvent today))).countP
          (fun e => (isKec e && (kecKey e == k)) && isAcademicKEC e) := by
  show (removeKECNoAcademicEvents
      (mergeAdjacentRoomEvents ((recordFilter raws).map (assembleEvent today)))).countP
        (fun e => isKec e && (kecKey e == k)) = _
  rw [removeKECNoAcademicEvents, List.countP_filter]
  congr 1
  funext e
  cases h : e.event_type == some "KEC" with
  | false => simp [isKec, h]
  | true => simp [isKec, h]
